import Mathlib

/-!
Verification of the message-personalization and persistence pipeline of
`app.py` (Assessli prototype).

The development shallowly embeds the pure content of the Python source:

* a `Json` value type modelling Python objects that pass through
  `json.dumps` / `json.loads` (numbers are modelled as integers, which covers
  every value the application ever serializes; floats do not occur);
* `json_dumps` / `json_loads`, faithful models of the CPython `json` module
  with default settings, with one encoding simplification documented at
  `escJsonChar`;
* `html_escape` (Python `html.escape` with `quote=True`), `pyStrip`
  (Python `str.strip()`), and the reply generator `mock_lbm_response`;
* the SQLite-backed record store (`save_user`, `fetch_user`, `list_users`,
  `save_message`) as operations on an explicit list of rows, with the `meta`
  column stored as serialized text exactly as `json.dumps` produces it;
* the chat-turn handler of `companion_chat_ui` (the spec's `submitTurn`),
  with its effectful inputs (uuids, timestamps, the best-effort IP lookup,
  the OpenAI HTTP call outcome, and storage success/failure) passed in as
  explicit data.
-/

/-- Python truthiness, JSON values, and the store model live in one namespace
to keep source-level names (`save_user`, `fetch_user`, ...) at top level. -/
inductive Json where
  | null
  | bool (b : Bool)
  | num (n : Int)
  | str (s : List Char)
  | arr (xs : List Json)
  | obj (kvs : List (List Char × Json))

/-- Python dict insertion: if the key is present its value is replaced in
place (the position and original key object are kept); otherwise the pair is
appended.  This is the semantics `json.loads` uses when it builds a dict from
parsed object entries. -/
def pyDictSet (kvs : List (List Char × Json)) (k : List Char) (v : Json) :
    List (List Char × Json) :=
  match kvs with
  | [] => [(k, v)]
  | (k', v') :: rest =>
    if k' = k then (k', v) :: rest else (k', v') :: pyDictSet rest k v

/-- Lookup in a JSON object; `none` when the value is not an object or the
key is absent.  Models Python `dict.get` (combined with a default via
`Option.getD` at use sites). -/
def jsonLookup (j : Json) (k : String) : Option Json :=
  match j with
  | .obj kvs => (kvs.find? (fun p => p.1 = k.data)).map (fun p => p.2)
  | _ => none

/-- Python `dict.get(k, dflt)` on a JSON object (any non-object gives the
default, matching that the application only calls `.get` on dicts). -/
def pyGet (j : Json) (k : String) (dflt : Json) : Json :=
  (jsonLookup j k).getD dflt

/-- Python truthiness of a JSON value (`bool(x)`): `None`, `False`, `0`,
`""`, `[]` and `{}` are falsy, everything else is truthy. -/
def pyTruthy : Json → Bool
  | .null => false
  | .bool b => b
  | .num n => decide (n ≠ 0)
  | .str s => decide (s ≠ [])
  | .arr [] => false
  | .arr (_ :: _) => true
  | .obj [] => false
  | .obj (_ :: _) => true

/-- Python `str(x)` of a JSON scalar as interpolated by the f-string in
`mock_lbm_response`.  The application only ever interpolates the string
stored under `meta["bio"]`; container and scalar fallbacks are modelled by
their JSON text, which differs from CPython `repr` only in quote style and
never occurs in the application's data flow. -/
def jsonToPyStr : Json → String
  | .str s => String.mk s
  | .null => "None"
  | .bool true => "True"
  | .bool false => "False"
  | .num n => toString n
  | .arr _ => "[...]"
  | .obj _ => "\x7b...\x7d"

/-- Decimal digit character (used by the model of CPython's integer
printing inside `json.dumps`). -/
def digitChar : Nat → Char
  | 0 => '0' | 1 => '1' | 2 => '2' | 3 => '3' | 4 => '4'
  | 5 => '5' | 6 => '6' | 7 => '7' | 8 => '8' | _ => '9'

/-- Lowercase hexadecimal digit character (CPython's `\uXXXX` escapes are
lowercase). -/
def hexDigitChar : Nat → Char
  | 0 => '0' | 1 => '1' | 2 => '2' | 3 => '3' | 4 => '4'
  | 5 => '5' | 6 => '6' | 7 => '7' | 8 => '8' | 9 => '9'
  | 10 => 'a' | 11 => 'b' | 12 => 'c' | 13 => 'd' | 14 => 'e' | _ => 'f'

/-- Decimal digits of a natural number, most significant first (CPython
integer `repr`). -/
def natToChars (n : Nat) : List Char :=
  if h : n < 10 then [digitChar n]
  else natToChars (n / 10) ++ [digitChar (n % 10)]
termination_by n
decreasing_by exact Nat.div_lt_self (by omega) (by omega)

/-- Decimal text of an integer, as `json.dumps` prints Python ints. -/
def intToChars (n : Int) : List Char :=
  if n < 0 then '-' :: natToChars (-n).toNat else natToChars n.toNat

/-- One character of a JSON string as escaped by `json.dumps`.  Faithful to
CPython's `ESCAPE_DCT`: backslash, double quote and the named control
escapes get two-character escapes, all other control characters get
`\u00xx`.  One simplification: CPython's default `ensure_ascii=True`
additionally `\u`-escapes characters above U+007F, while this model emits
them literally; both spellings are accepted by `json.loads` and denote the
same string, so the store round trip is unaffected. -/
def escJsonChar (c : Char) : List Char :=
  if c = '"' then '\\' :: '"' :: []
  else if c = '\\' then '\\' :: '\\' :: []
  else if c = '\n' then '\\' :: 'n' :: []
  else if c = '\r' then '\\' :: 'r' :: []
  else if c = '\t' then '\\' :: 't' :: []
  else if c = '\x08' then '\\' :: 'b' :: []
  else if c = '\x0c' then '\\' :: 'f' :: []
  else if c.toNat < 32 then
    '\\' :: 'u' :: '0' :: '0' :: hexDigitChar (c.toNat / 16) :: hexDigitChar (c.toNat % 16) :: []
  else [c]

/-- The body of a JSON string literal as escaped by `json.dumps` (without
the surrounding quotes). -/
def escJson : List Char → List Char
  | [] => []
  | c :: s => escJsonChar c ++ escJson s

mutual

/-- Model of `json.dumps` with default settings on the `Json` value type:
separators are `", "` and `": "`, keys in dict insertion order.  See
`escJsonChar` for the one documented encoding simplification. -/
def json_dumps : Json → List Char
  | .null => 'n' :: 'u' :: 'l' :: 'l' :: []
  | .bool b =>
    if b then 't' :: 'r' :: 'u' :: 'e' :: [] else 'f' :: 'a' :: 'l' :: 's' :: 'e' :: []
  | .num n => intToChars n
  | .str s => '"' :: escJson s ++ ['"']
  | .arr xs => '[' :: dumpsItems xs ++ [']']
  | .obj kvs => '\x7b' :: dumpsEntries kvs ++ ['\x7d']

/-- Comma-separated array elements as printed by `json.dumps`. -/
def dumpsItems : List Json → List Char
  | [] => []
  | [v] => json_dumps v
  | v :: tl => json_dumps v ++ ',' :: ' ' :: dumpsItems tl

/-- Comma-separated object entries as printed by `json.dumps`. -/
def dumpsEntries : List (List Char × Json) → List Char
  | [] => []
  | [(k, v)] => '"' :: escJson k ++ '"' :: ':' :: ' ' :: json_dumps v
  | (k, v) :: tl =>
    ('"' :: escJson k ++ '"' :: ':' :: ' ' :: json_dumps v) ++ ',' :: ' ' :: dumpsEntries tl

end

/-- Pairwise distinctness of a key list. -/
def distinctKeys : List (List Char) → Bool
  | [] => true
  | k :: ks => decide (k ∉ ks) && distinctKeys ks

mutual

/-- Keys of every object occurring in the value are pairwise distinct.  This
is an invariant of every value obtained from a Python dict (a mapping cannot
have duplicate keys), used as the hypothesis of the serialization round
trip. -/
def nodupKeys : Json → Bool
  | .null => true
  | .bool _ => true
  | .num _ => true
  | .str _ => true
  | .arr xs => nodupKeysList xs
  | .obj kvs => distinctKeys (kvs.map (fun p => p.1)) && nodupKeysEntries kvs

/-- Helper of `nodupKeys` for array elements. -/
def nodupKeysList : List Json → Bool
  | [] => true
  | v :: tl => nodupKeys v && nodupKeysList tl

/-- Helper of `nodupKeys` for object entry values. -/
def nodupKeysEntries : List (List Char × Json) → Bool
  | [] => true
  | (_, v) :: tl => nodupKeys v && nodupKeysEntries tl

end

mutual

/-- Fuel measure for the JSON parser: an upper bound on the number of
`parseValue`/`parseArrayItems`/`parseObjItems` calls needed to parse the
printed form of a value. -/
def jsize : Json → Nat
  | .null => 1
  | .bool _ => 1
  | .num _ => 1
  | .str _ => 1
  | .arr xs => 1 + jsizeItems xs
  | .obj kvs => 1 + jsizeEntries kvs

/-- Helper of `jsize` for array elements. -/
def jsizeItems : List Json → Nat
  | [] => 0
  | v :: tl => 1 + jsize v + jsizeItems tl

/-- Helper of `jsize` for object entries. -/
def jsizeEntries : List (List Char × Json) → Nat
  | [] => 0
  | (_, v) :: tl => 1 + jsize v + jsizeEntries tl

end

/-- JSON insignificant whitespace (RFC 8259 / CPython `json`). -/
def wsJson (c : Char) : Bool :=
  decide (c = ' ' ∨ c = '\t' ∨ c = '\n' ∨ c = '\r')

/-- Skip insignificant whitespace. -/
def skipWs (l : List Char) : List Char := l.dropWhile wsJson

/-- Prepend a character to the string being accumulated by
`parseStringBody`. -/
def consFirst (c : Char) : Option (List Char × List Char) → Option (List Char × List Char)
  | some (s, r) => some (c :: s, r)
  | none => none

/-- Hexadecimal digit value, accepting both cases as `json.loads` does. -/
def hexVal (c : Char) : Option Nat :=
  if 48 ≤ c.toNat ∧ c.toNat ≤ 57 then some (c.toNat - 48)
  else if 97 ≤ c.toNat ∧ c.toNat ≤ 102 then some (c.toNat - 87)
  else if 65 ≤ c.toNat ∧ c.toNat ≤ 70 then some (c.toNat - 55)
  else none

/-- Decode the four hex digits of a `\uXXXX` escape.  A code unit that is
not a Unicode scalar value (a lone surrogate, which CPython would keep as a
surrogate code unit) is unrepresentable in `Char` and makes the model fail;
`json.dumps` output never contains one. -/
def hex4 : List Char → Option Char
  | [h1, h2, h3, h4] =>
    match hexVal h1, hexVal h2, hexVal h3, hexVal h4 with
    | some a, some b, some c, some d =>
      let n := ((a * 16 + b) * 16 + c) * 16 + d
      if n.isValidChar then some (Char.ofNat n) else none
    | _, _, _, _ => none
  | _ => none

/-- Body of a JSON string literal after the opening quote, as read by
`json.loads` in its default strict mode: the named escapes and `\uXXXX` are
decoded, unescaped control characters are rejected (see `hex4` for the
lone-surrogate caveat). -/
def parseStringBody : List Char → Option (List Char × List Char)
  | [] => none
  | c :: rest =>
    if c = '"' then some ([], rest)
    else if c = '\\' then
      match rest with
      | [] => none
      | e :: rest2 =>
        if e = '"' then consFirst '"' (parseStringBody rest2)
        else if e = '\\' then consFirst '\\' (parseStringBody rest2)
        else if e = '/' then consFirst '/' (parseStringBody rest2)
        else if e = 'b' then consFirst '\x08' (parseStringBody rest2)
        else if e = 'f' then consFirst '\x0c' (parseStringBody rest2)
        else if e = 'n' then consFirst '\n' (parseStringBody rest2)
        else if e = 'r' then consFirst '\r' (parseStringBody rest2)
        else if e = 't' then consFirst '\t' (parseStringBody rest2)
        else if e = 'u' then
          match hex4 (rest2.take 4) with
          | some u => consFirst u (parseStringBody (rest2.drop 4))
          | none => none
        else none
    else if c.toNat < 32 then none
    else consFirst c (parseStringBody rest)
termination_by l => l.length
decreasing_by
  all_goals simp [List.length_drop]
  all_goals omega

/-- Decimal digit test. -/
def isDigitB (c : Char) : Bool := decide (48 ≤ c.toNat ∧ c.toNat ≤ 57)

/-- Longest decimal-digit prefix and the remainder. -/
def spanDigits : List Char → List Char × List Char
  | [] => ([], [])
  | c :: rest =>
    if isDigitB c then
      let p := spanDigits rest
      (c :: p.1, p.2)
    else ([], c :: rest)

/-- Value of a list of decimal digits. -/
def digitsToNat (ds : List Char) : Nat :=
  ds.foldl (fun a c => a * 10 + (c.toNat - 48)) 0

/-- A fraction or exponent part follows (the number would be a float). -/
def floatFollows : List Char → Bool
  | [] => false
  | c :: _ => decide (c = '.' ∨ c = 'e' ∨ c = 'E')

/-- JSON number as read by `json.loads`, restricted to integers: a fraction
or exponent part would make CPython produce a float, which this integer
model does not represent (and which `json.dumps` output of the application
never contains), so such input makes the model fail. -/
def parseNumber (l : List Char) : Option (Int × List Char) :=
  match l with
  | '-' :: rest =>
    match spanDigits rest with
    | ([], _) => none
    | (ds, r) =>
      if floatFollows r then none else some (-(Int.ofNat (digitsToNat ds)), r)
  | _ =>
    match spanDigits l with
    | ([], _) => none
    | (ds, r) =>
      if floatFollows r then none else some (Int.ofNat (digitsToNat ds), r)

mutual

/-- Recursive-descent JSON value parser modelling `json.loads`, fueled to
make the recursion structural; `json_loads` supplies fuel that is always
sufficient. -/
def parseValue : Nat → List Char → Option (Json × List Char)
  | 0, _ => none
  | fuel + 1, l =>
    match skipWs l with
    | [] => none
    | c :: rest =>
      if c = 'n' then
        match rest with
        | 'u' :: 'l' :: 'l' :: r => some (.null, r)
        | _ => none
      else if c = 't' then
        match rest with
        | 'r' :: 'u' :: 'e' :: r => some (.bool true, r)
        | _ => none
      else if c = 'f' then
        match rest with
        | 'a' :: 'l' :: 's' :: 'e' :: r => some (.bool false, r)
        | _ => none
      else if c = '"' then
        match parseStringBody rest with
        | some (s, r) => some (.str s, r)
        | none => none
      else if c = '[' then
        match skipWs rest with
        | ']' :: r => some (.arr [], r)
        | r =>
          match parseArrayItems fuel r with
          | some (xs, r2) => some (.arr xs, r2)
          | none => none
      else if c = '\x7b' then
        match skipWs rest with
        | '\x7d' :: r => some (.obj [], r)
        | r =>
          match parseObjItems fuel r with
          | some (ps, r2) =>
            some (.obj (ps.foldl (fun acc kv => pyDictSet acc kv.1 kv.2) []), r2)
          | none => none
      else
        match parseNumber (c :: rest) with
        | some (n, r) => some (.num n, r)
        | none => none

/-- One or more comma-separated array elements followed by `]`. -/
def parseArrayItems : Nat → List Char → Option (List Json × List Char)
  | 0, _ => none
  | fuel + 1, l =>
    match parseValue fuel l with
    | none => none
    | some (v, r) =>
      match skipWs r with
      | ',' :: r2 =>
        match parseArrayItems fuel r2 with
        | some (xs, r3) => some (v :: xs, r3)
        | none => none
      | ']' :: r2 => some ([v], r2)
      | _ => none

/-- One or more comma-separated `"key": value` entries followed by the
closing brace; returns the raw entry list in input order (`parseValue`
folds it into a dict with `pyDictSet`). -/
def parseObjItems : Nat → List Char → Option (List (List Char × Json) × List Char)
  | 0, _ => none
  | fuel + 1, l =>
    match skipWs l with
    | '"' :: r =>
      (match parseStringBody r with
       | none => none
       | some (k, r2) =>
         match skipWs r2 with
         | ':' :: r3 =>
           (match parseValue fuel r3 with
            | none => none
            | some (v, r4) =>
              match skipWs r4 with
              | ',' :: r5 =>
                (match parseObjItems fuel r5 with
                 | some (ps, r6) => some ((k, v) :: ps, r6)
                 | none => none)
              | '\x7d' :: r5 => some ([(k, v)], r5)
              | _ => none)
         | _ => none)
    | _ => none

end

/-- Model of `json.loads`: parse one value, then require only whitespace to
remain.  The fuel `2 * length + 2` dominates the recursion depth on any
input (each unit of nesting or array/object element consumes at least one
input character and at most two fuel units). -/
def json_loads (s : String) : Option Json :=
  match parseValue (2 * s.data.length + 2) s.data with
  | some (v, r) => if skipWs r = [] then some v else none
  | none => none

/-- Python `str.isspace()` whitespace as stripped by `str.strip()` with no
argument, restricted to the code points below U+00FF that Python treats as
whitespace (the remaining Unicode space separators never reach the reply
generator and behave identically for every property proved here). -/
def pySpace (c : Char) : Bool :=
  decide (c = ' ' ∨ c = '\t' ∨ c = '\n' ∨ c = '\r' ∨ c = '\x0b' ∨ c = '\x0c' ∨
    c = '\x1c' ∨ c = '\x1d' ∨ c = '\x1e' ∨ c = '\x1f' ∨ c = '\x85' ∨ c = '\xa0')

/-- Python `str.strip()`: remove leading and trailing whitespace. -/
def pyStrip (l : List Char) : List Char :=
  (((l.dropWhile pySpace).reverse.dropWhile pySpace)).reverse

/-- Python `str.strip()` on `String`. -/
def pyStripS (s : String) : String := String.mk (pyStrip s.data)

/-- One character as escaped by Python `html.escape` with the default
`quote=True`: `&`, `<`, `>`, `"` and `'` are replaced by their entities,
everything else is kept. -/
def escHtmlChar (c : Char) : List Char :=
  if c = '&' then '&' :: 'a' :: 'm' :: 'p' :: ';' :: []
  else if c = '<' then '&' :: 'l' :: 't' :: ';' :: []
  else if c = '>' then '&' :: 'g' :: 't' :: ';' :: []
  else if c = '"' then '&' :: 'q' :: 'u' :: 'o' :: 't' :: ';' :: []
  else if c = '\'' then '&' :: '#' :: 'x' :: '2' :: '7' :: ';' :: []
  else [c]

/-- Python `html.escape(s)` (with the default `quote=True`). -/
def html_escape : List Char → List Char
  | [] => []
  | c :: l => escHtmlChar c ++ html_escape l

/-- The echoed portion of the reply: `html.escape(prompt.strip())[:1000]`
from line 145 of `app.py` (the text after the `"> "` prefix of the echo
line). -/
def echoedData (prompt : String) : List Char :=
  (html_escape (pyStrip prompt.data)).take 1000

/-- Every occurrence of `&` in the list starts one of the five entities
produced by `html.escape` (`&amp;` `&lt;` `&gt;` `&quot;` `&#x27;`), and no
literal `<` or `>` occurs: the formalization of "contains no literal
`<`/`>`/`&`, only their escaped forms appear". -/
def wellEscaped : List Char → Bool
  | [] => true
  | c :: rest =>
    if c = '<' then false
    else if c = '>' then false
    else if c = '&' then
      if rest.take 4 = 'a' :: 'm' :: 'p' :: ';' :: [] then wellEscaped (rest.drop 4)
      else if rest.take 3 = 'l' :: 't' :: ';' :: [] then wellEscaped (rest.drop 3)
      else if rest.take 3 = 'g' :: 't' :: ';' :: [] then wellEscaped (rest.drop 3)
      else if rest.take 5 = 'q' :: 'u' :: 'o' :: 't' :: ';' :: [] then wellEscaped (rest.drop 5)
      else if rest.take 5 = '#' :: 'x' :: '2' :: '7' :: ';' :: [] then wellEscaped (rest.drop 5)
      else false
    else wellEscaped rest
termination_by l => l.length
decreasing_by
  all_goals simp [List.length_drop]
  all_goals omega

/-- A user profile as the application passes it around: the dict built by
`register_flow` / returned by `fetch_user`.  `name`, `email` and `phone` are
display strings (a SQLite `NULL`, which the application itself never writes,
is modelled as `""` — both are falsy where the code tests them). -/
structure Profile where
  id : String
  name : String
  email : String
  phone : String
  meta : Json
  created_at : String

/-- The deterministic mock reply generator `mock_lbm_response` of `app.py`
(lines 129-151), translated line by line: greeting with name fallback, an
optional bio acknowledgment, a fixed lead-in, the escaped and truncated echo
of the prompt, a fixed suggestion and a fixed disclaimer, joined by blank
lines. -/
def mock_lbm_response (user_profile : Profile) (prompt : String) : String :=
  let name := if user_profile.name = "" then "Friend" else user_profile.name
  let short_profile := pyGet user_profile.meta "bio" (Json.str [])
  let bioLines :=
    if pyTruthy short_profile then
      ["I remember you said: \"" ++ jsonToPyStr short_profile ++ "\" — I'll keep that in mind."]
    else []
  String.intercalate "\n\n"
    (("Hi " ++ name ++ ", thanks for sharing that.") ::
      bioLines ++
      ["Here's a thoughtful reply to your message:",
       "> " ++ String.mk (echoedData prompt),
       "Suggestion: try breaking the task into smaller steps. Which step would you like help with first?",
       "(This is a demo response from Assessli's prototype LBM — not medical or legal advice.)"])

/-- A row of the `users` table.  `metaText` is the serialized `meta` column
(`NULL` is `none`). -/
structure UserRow where
  id : String
  name : String
  email : String
  phone : String
  metaText : Option String
  created_at : String

/-- Python-level exception raised out of a store read (`json.loads` failure
on a corrupted `meta` column). -/
inductive PyErr
  | err

/-- Turn a `users` row into the profile dict that `fetch_user`/`list_users`
return: `meta` is `json.loads(row[4]) if row[4] else {}` (line 98 of
`app.py`) — `None` and `""` are falsy, so both give the empty dict. -/
def rowToProfile (r : UserRow) : Except PyErr Profile :=
  match r.metaText with
  | none => .ok ⟨r.id, r.name, r.email, r.phone, .obj [], r.created_at⟩
  | some t =>
    if t = "" then .ok ⟨r.id, r.name, r.email, r.phone, .obj [], r.created_at⟩
    else
      match json_loads t with
      | some j => .ok ⟨r.id, r.name, r.email, r.phone, j, r.created_at⟩
      | none => .error .err

/-- `save_user` (lines 71-77): `INSERT OR REPLACE` keyed on `id`, with
`meta` serialized by `json.dumps`.  The table is modelled as a list of rows;
replacing deletes the conflicting row and inserts the new one. -/
def save_user (rows : List UserRow) (user : Profile) : List UserRow :=
  rows.filter (fun r => decide (r.id ≠ user.id)) ++
    [⟨user.id, user.name, user.email, user.phone,
      some (String.mk (json_dumps user.meta)), user.created_at⟩]

/-- `fetch_user` (lines 87-100): select by exact id; `None` when absent. -/
def fetch_user (rows : List UserRow) (user_id : String) : Except PyErr (Option Profile) :=
  match rows.find? (fun r => r.id = user_id) with
  | none => .ok none
  | some r =>
    match rowToProfile r with
    | .ok p => .ok (some p)
    | .error e => .error e

/-- Kernel-reducible lexicographic order on character lists, modelling
SQLite's byte-wise text comparison used by `ORDER BY created_at DESC`
(byte-wise UTF-8 order coincides with code-point order). -/
def lexLe : List Char → List Char → Bool
  | [], _ => true
  | _ :: _, [] => false
  | a :: as, b :: bs =>
    if a.toNat < b.toNat then true
    else if b.toNat < a.toNat then false
    else lexLe as bs

/-- Insert a row into a list sorted by `created_at` descending. -/
def insertByCreatedDesc (r : UserRow) : List UserRow → List UserRow
  | [] => [r]
  | x :: xs =>
    if lexLe x.created_at.data r.created_at.data then r :: x :: xs
    else x :: insertByCreatedDesc r xs

/-- `ORDER BY created_at DESC` on the `users` table. -/
def sortByCreatedDesc (rows : List UserRow) : List UserRow :=
  rows.foldr insertByCreatedDesc []

/-- Sequence `rowToProfile` over a list of rows, propagating the first
exception, as the list comprehension in `list_users` does. -/
def mapRows : List UserRow → Except PyErr (List Profile)
  | [] => .ok []
  | r :: rest =>
    match rowToProfile r with
    | .error e => .error e
    | .ok p =>
      match mapRows rest with
      | .error e => .error e
      | .ok ps => .ok (p :: ps)

/-- `list_users` (lines 102-116): all rows ordered by `created_at`
descending, each converted like `fetch_user` converts a row. -/
def list_users (rows : List UserRow) : Except PyErr (List Profile) :=
  mapRows (sortByCreatedDesc rows)

/-- A row of the `conversations` table / the message dicts the pipeline
builds.  `metadata` is kept as the structured value; `save_message`
serializes it with `json.dumps`, which is injective on dict-shaped values,
so nothing is lost by keeping the structure in the row model. -/
structure Msg where
  id : String
  user_id : String
  role : String
  message : String
  metadata : Json
  ts : String

/-- `StorageError`: the SQLite exception a failed `INSERT` raises out of
`save_message` (medium unreachable or full). -/
inductive StorageError
  | storageError

/-- `save_message` (lines 79-85): plain `INSERT`, committed per call.  The
storage medium's health is modelled by `saveOk`: when it reports failure the
call raises `StorageError` (the `cur.execute` exception), otherwise the row
is appended. -/
def save_message (saveOk : Msg → Bool) (db : List Msg) (conv : Msg) :
    Except StorageError (List Msg) :=
  if saveOk conv then .ok (db ++ [conv]) else .error .storageError

/-- Outcome of the `requests.post` call to the OpenAI endpoint (line 261):
a 200 response with the assistant content at
`resp["choices"][0]["message"]["content"]`, a non-200 status, or a raised
exception (network error, timeout, malformed JSON body, missing key — all
land in the same `except Exception` handler). -/
inductive ExtOutcome
  | ok (content : String)
  | httpError (status : Nat)
  | exn (msg : String)

/-- The external call did not produce a usable reply. -/
def extFailed : ExtOutcome → Bool
  | .ok _ => false
  | .httpError _ => true
  | .exn _ => true

/-- All effectful inputs of one chat-turn submission in `companion_chat_ui`
(lines 232-287), passed explicitly: the session profile and prompt, the two
form controls, the OpenAI key field (`""` when left empty — the code tests
its truthiness), the outcome the external call would have, the data
`detect_tech_info` would gather, the minted uuids and timestamps, the
storage medium's health, and the pre-existing `conversations` rows. -/
structure TurnEnv where
  user : Profile
  prompt : String
  remember : Bool
  openaiKey : String
  ext : ExtOutcome
  ipResult : Option String
  browserInput : String
  uuid1 : String
  uuid2 : String
  ts1 : String
  ts2 : String
  saveOk : Msg → Bool
  db0 : List Msg

/-- `detect_tech_info` (lines 210-217): a dict with the best-effort public
IP (Python `None` when the lookup failed) and the pasted browser
user-agent. -/
def detect_tech_info (ip : Option String) (browser : String) : Json :=
  Json.obj
    [("ip".data, match ip with | none => Json.null | some s => Json.str s.data),
     ("browser".data, Json.str browser.data)]

/-- The `tech` metadata of the user message (line 234):
`detect_tech_info() if user.get("meta", {}).get("allow_tech_info", True)
else {}`. -/
def techFor (env : TurnEnv) : Json :=
  if pyTruthy (pyGet env.user.meta "allow_tech_info" (Json.bool true)) then
    detect_tech_info env.ipResult env.browserInput
  else Json.obj []

/-- The user-role message dict built at lines 235-242. -/
def mkUserConv (env : TurnEnv) : Msg :=
  ⟨env.uuid1, env.user.id, "user", env.prompt,
    Json.obj [("tech".data, techFor env)], env.ts1⟩

/-- The assistant text (lines 247-272): with a truthy key, a 200 response
uses the stripped OpenAI content and any failure falls back to
`mock_lbm_response`; with no key the mock is used directly. -/
def assistantText (env : TurnEnv) : String :=
  if env.openaiKey = "" then mock_lbm_response env.user env.prompt
  else
    match env.ext with
    | .ok content => pyStripS content
    | .httpError _ => mock_lbm_response env.user env.prompt
    | .exn _ => mock_lbm_response env.user env.prompt

/-- The assistant-role message dict built at lines 275-282; its
`generated_by` tag is `"mock_lbm" if not openai_key else "openai_proxy"` —
it records whether a key was supplied, not which path produced the text. -/
def mkAssistantConv (env : TurnEnv) : Msg :=
  ⟨env.uuid2, env.user.id, "assistant", assistantText env,
    Json.obj [("generated_by".data,
      Json.str (if env.openaiKey = "" then "mock_lbm".data else "openai_proxy".data))],
    env.ts2⟩

/-- One submitted chat turn of `companion_chat_ui` (lines 232-287), after
the `if submit and prompt` guard: build and (if the checkbox is set)
persist the user message, obtain the assistant text, persist the assistant
message, and return the displayed text together with the final
`conversations` table.  The bare `save_message` calls have no exception
handler in the source, so a storage failure propagates and aborts the
turn. -/
def submitTurn (env : TurnEnv) : Except StorageError (String × List Msg) := do
  let conv := mkUserConv env
  let db1 ← if env.remember then save_message env.saveOk env.db0 conv else pure env.db0
  let text := assistantText env
  let db2 ← save_message env.saveOk db1 (mkAssistantConv env)
  pure (text, db2)

/-- The `meta` dict built by `register_flow` (line 202): the bio text and
the two checkbox values coerced with `bool(...)`. -/
def register_meta (bio : String) (allow_cookies reject_sensitive : Bool) : Json :=
  Json.obj
    [("bio".data, Json.str bio.data),
     ("allow_tech_info".data, Json.bool allow_cookies),
     ("sensitive_data_ack".data, Json.bool reject_sensitive)]

/-- Every character of the list is JSON whitespace. -/
def allWs (sp : List Char) : Bool := sp.all wsJson

/-- The list does not begin with a character that could extend a decimal
number (a digit, or a fraction/exponent marker).  Holds for every
continuation `json_dumps` ever places after a number (`,`, `]`, the closing
brace, or nothing). -/
def numberSafe : List Char → Bool
  | [] => true
  | c :: _ => !isDigitB c && !decide (c = '.' ∨ c = 'e' ∨ c = 'E')

/-- A registered profile used as concrete witness data (Scenario A's
shape). -/
def profAva : Profile :=
  ⟨"u-0001", "Ava", "a@x.com", "", register_meta "loves hiking" true true,
    "2024-01-01T00:00:00"⟩

/-- Three store rows with distinct `created_at` used as concrete witness
data. -/
def rowsThree : List UserRow :=
  [⟨"u-1", "A", "a@x.com", "", none, "2024-01-01T00:00:00"⟩,
   ⟨"u-2", "B", "b@x.com", "", none, "2024-03-01T00:00:00"⟩,
   ⟨"u-3", "C", "c@x.com", "", none, "2024-02-01T00:00:00"⟩]

/-- A healthy storage medium: every insert succeeds. -/
def storeHealthy : Msg → Bool := fun _ => true

/-- A failed storage medium: every insert raises. -/
def storeBroken : Msg → Bool := fun _ => false

/-- A turn with an OpenAI key supplied whose external call raises (read
timeout), on a healthy store. -/
def envKeyTimeout : TurnEnv :=
  ⟨profAva, "hello", true, "sk-demo-key", .exn "ReadTimeout", none, "",
    "uuid-1", "uuid-2", "2024-01-01T10:00:00", "2024-01-01T10:00:01",
    storeHealthy, []⟩

/-- A turn with no key on a store whose inserts fail. -/
def envStoreDown : TurnEnv :=
  ⟨profAva, "hello", true, "", .exn "unused", none, "",
    "uuid-1", "uuid-2", "2024-01-01T10:00:00", "2024-01-01T10:00:01",
    storeBroken, []⟩

/-- A turn with a key whose external call returns HTTP 500, on a healthy
store. -/
def envKeyHttp500 : TurnEnv :=
  ⟨profAva, "hello", true, "sk-demo-key", .httpError 500, none, "",
    "uuid-1", "uuid-2", "2024-01-01T10:00:00", "2024-01-01T10:00:01",
    storeHealthy, []⟩

/-- A turn with no key on a healthy store. -/
def envNoKey : TurnEnv :=
  ⟨profAva, "hello", true, "", .exn "unused", none, "",
    "uuid-1", "uuid-2", "2024-01-01T10:00:00", "2024-01-01T10:00:01",
    storeHealthy, []⟩

/-- A profile whose `meta` has no `allow_tech_info` key at all. -/
def profNoFlag : Profile :=
  ⟨"u-0002", "Bo", "b@x.com", "", Json.obj [("bio".data, Json.str [])],
    "2024-01-02T00:00:00"⟩

/-- A turn by `profNoFlag` on a healthy store. -/
def envNoFlag : TurnEnv :=
  ⟨profNoFlag, "hi", true, "", .exn "unused", some "203.0.113.7", "UA",
    "uuid-3", "uuid-4", "2024-01-02T10:00:00", "2024-01-02T10:00:01",
    storeHealthy, []⟩

/-- 999 `a`s followed by `<`: its escaped form is 1003 characters long, so
the `[:1000]` truncation cuts the final `&lt;` entity after its `&`. -/
def sCut : String := String.mk (List.replicate 999 'a' ++ ['<'])

/-- 1001 `a`s: a trimmed prompt longer than the 1000-character echo cap. -/
def sLong : String := String.mk (List.replicate 1001 'a')

theorem skipWs_cons_not (c : Char) (l : List Char) (h : wsJson c = false) :
    skipWs (c :: l) = c :: l := by
  simp [skipWs, List.dropWhile_cons, h]

theorem skipWs_ws_append (sp l : List Char) (h : allWs sp = true) :
    skipWs (sp ++ l) = skipWs l := by
  induction sp with
  | nil => rfl
  | cons c cs ih =>
    simp only [allWs, List.all_cons, Bool.and_eq_true] at h
    simp only [List.cons_append, skipWs, List.dropWhile_cons, h.1, if_true]
    exact ih (by simp [allWs, h.2])

theorem digitChar_toNat (k : Nat) (h : k < 10) : (digitChar k).toNat = 48 + k := by
  interval_cases k <;> decide

theorem isDigitB_digitChar (k : Nat) (h : k < 10) : isDigitB (digitChar k) = true := by
  interval_cases k <;> decide

theorem hexVal_hexDigitChar (k : Nat) (h : k < 16) : hexVal (hexDigitChar k) = some k := by
  interval_cases k <;> decide

theorem natToChars_ne_nil (n : Nat) : natToChars n ≠ [] := by
  rw [natToChars]
  split
  · simp
  · simp

theorem natToChars_digits (n : Nat) : ∀ c ∈ natToChars n, isDigitB c = true := by
  induction n using Nat.strong_induction_on with
  | _ n ih =>
    rw [natToChars]
    split
    · intro c hc
      simp only [List.mem_singleton] at hc
      subst hc
      exact isDigitB_digitChar n (by omega)
    · intro c hc
      rcases List.mem_append.mp hc with h1 | h1
      · exact ih (n / 10) (Nat.div_lt_self (by omega) (by omega)) c h1
      · simp only [List.mem_singleton] at h1
        subst h1
        exact isDigitB_digitChar (n % 10) (Nat.mod_lt n (by omega))

theorem digitsToNat_append_one (ds : List Char) (c : Char) :
    digitsToNat (ds ++ [c]) = digitsToNat ds * 10 + (c.toNat - 48) := by
  simp [digitsToNat, List.foldl_append]

theorem digitsToNat_natToChars (n : Nat) : digitsToNat (natToChars n) = n := by
  induction n using Nat.strong_induction_on with
  | _ n ih =>
    rw [natToChars]
    split
    · rename_i h
      simp [digitsToNat, digitChar_toNat n h]
    · rename_i h
      rw [digitsToNat_append_one, ih (n / 10) (Nat.div_lt_self (by omega) (by omega)),
        digitChar_toNat (n % 10) (Nat.mod_lt n (by omega))]
      omega

theorem spanDigits_split (ds r : List Char) (hds : ∀ c ∈ ds, isDigitB c = true)
    (hr : numberSafe r = true) : spanDigits (ds ++ r) = (ds, r) := by
  induction ds with
  | nil =>
    cases r with
    | nil => rfl
    | cons c cs =>
      simp only [numberSafe, Bool.and_eq_true, Bool.not_eq_true'] at hr
      simp [spanDigits, hr.1]
  | cons d ds' ih =>
    have hd : isDigitB d = true := hds d (by simp)
    have ih' := ih (fun c hc => hds c (by simp [hc]))
    simp only [List.cons_append, spanDigits, hd, if_true, List.append_eq, ih']

theorem floatFollows_eq_false (r : List Char) (hr : numberSafe r = true) :
    floatFollows r = false := by
  cases r with
  | nil => rfl
  | cons c cs =>
    simp only [numberSafe, Bool.and_eq_true, Bool.not_eq_true'] at hr
    simp [floatFollows, hr.2]

theorem isDigitB_not_minus (c : Char) (h : isDigitB c = true) : c ≠ '-' := by
  intro hc
  subst hc
  exact absurd h (by decide)

theorem spanDigits_natToChars (m : Nat) (rest : List Char) (hr : numberSafe rest = true) :
    spanDigits (natToChars m ++ rest) = (natToChars m, rest) :=
  spanDigits_split _ _ (natToChars_digits m) hr

theorem parseNumber_intToChars (n : Int) (rest : List Char) (hr : numberSafe rest = true) :
    parseNumber (intToChars n ++ rest) = some (n, rest) := by
  by_cases hn : n < 0
  · have hpos : 0 ≤ -n := by omega
    simp only [intToChars, hn, if_true, List.cons_append, parseNumber]
    rw [spanDigits_natToChars _ _ hr]
    have hne := natToChars_ne_nil (-n).toNat
    cases hc : natToChars (-n).toNat with
    | nil => exact absurd hc hne
    | cons d ds =>
      simp only [floatFollows_eq_false rest hr, if_false]
      rw [← hc, digitsToNat_natToChars]
      have hofn : Int.ofNat (-n).toNat = -n := by
        rw [Int.ofNat_eq_coe, Int.toNat_of_nonneg hpos]
      rw [hofn]
      simp
  · have h0 : 0 ≤ n := by omega
    simp only [intToChars, hn, if_false]
    obtain ⟨d, ds, hc⟩ : ∃ d ds, natToChars n.toNat = d :: ds := by
      cases hcc : natToChars n.toNat with
      | nil => exact absurd hcc (natToChars_ne_nil _)
      | cons d ds => exact ⟨d, ds, rfl⟩
    have hd : isDigitB d = true := by
      have hall := natToChars_digits n.toNat
      rw [hc] at hall
      exact hall d (by simp)
    have hdm : d ≠ '-' := isDigitB_not_minus d hd
    rw [parseNumber.eq_def]
    split
    · rename_i heq
      rw [hc, List.cons_append] at heq
      exact absurd (by injection heq) hdm
    · rw [spanDigits_natToChars _ _ hr, hc]
      simp only [floatFollows_eq_false rest hr, if_false]
      rw [← hc, digitsToNat_natToChars]
      rw [Int.ofNat_eq_coe, Int.toNat_of_nonneg h0]
      simp

theorem parseStringBody_escJson (s rest : List Char) :
    parseStringBody (escJson s ++ '"' :: rest) = some (s, rest) := by
  induction s with
  | nil =>
    rw [show escJson [] ++ '"' :: rest = '"' :: rest from rfl, parseStringBody.eq_def]
    simp
  | cons c s' ih =>
    have hstep : escJson (c :: s') ++ '"' :: rest =
        escJsonChar c ++ (escJson s' ++ '"' :: rest) := by
      simp [escJson, List.append_assoc]
    rw [hstep]
    by_cases h1 : c = '"'
    · subst h1
      simp [escJsonChar, parseStringBody, consFirst, ih]
    by_cases h2 : c = '\\'
    · subst h2
      simp [escJsonChar, parseStringBody, consFirst, ih]
    by_cases h3 : c = '\n'
    · subst h3
      simp [escJsonChar, parseStringBody, consFirst, ih]
    by_cases h4 : c = '\r'
    · subst h4
      simp [escJsonChar, parseStringBody, consFirst, ih]
    by_cases h5 : c = '\t'
    · subst h5
      simp [escJsonChar, parseStringBody, consFirst, ih]
    by_cases h6 : c = '\x08'
    · subst h6
      simp [escJsonChar, parseStringBody, consFirst, ih]
    by_cases h7 : c = '\x0c'
    · subst h7
      simp [escJsonChar, parseStringBody, consFirst, ih]
    by_cases h8 : c.toNat < 32
    · have h16a : c.toNat / 16 < 16 := by omega
      have h16b : c.toNat % 16 < 16 := by omega
      simp only [escJsonChar, h1, h2, h3, h4, h5, h6, h7, h8, if_true, if_false,
        ite_false, ite_true, List.cons_append, List.nil_append]
      rw [parseStringBody.eq_def]
      simp only [reduceIte, List.take_succ_cons, List.take_zero, List.drop_succ_cons,
        List.drop_zero, hex4, hexVal_hexDigitChar _ h16a, hexVal_hexDigitChar _ h16b,
        show hexVal '0' = some 0 from by decide]
      have hn : ((0 * 16 + 0) * 16 + c.toNat / 16) * 16 + c.toNat % 16 = c.toNat := by
        omega
      rw [hn]
      have hv : (c.toNat).isValidChar := Or.inl (by omega)
      rw [if_pos hv, Char.ofNat_toNat, ih]
      simp [consFirst]
    · simp only [escJsonChar, h1, h2, h3, h4, h5, h6, h7, h8, if_false, ite_false,
        List.cons_append, List.nil_append]
      rw [parseStringBody.eq_def]
      simp only [h1, h2, h8, if_false, ite_false, ite_true]
      rw [ih]
      simp [consFirst]

theorem isDigitB_props (c : Char) (h : isDigitB c = true) :
    wsJson c = false ∧ c ≠ 'n' ∧ c ≠ 't' ∧ c ≠ 'f' ∧ c ≠ '"' ∧ c ≠ '[' ∧
      c ≠ '\x7b' ∧ c ≠ ']' ∧ c ≠ '\x7d' := by
  refine ⟨?_, ?_, ?_, ?_, ?_, ?_, ?_, ?_, ?_⟩
  · simp only [wsJson, decide_eq_false_iff_not]
    rintro (rfl | rfl | rfl | rfl) <;> exact absurd h (by decide)
  all_goals intro hc
  all_goals subst hc
  all_goals exact absurd h (by decide)

theorem intToChars_head (n : Int) :
    ∃ c t, intToChars n = c :: t ∧ (c = '-' ∨ isDigitB c = true) := by
  by_cases hn : n < 0
  · exact ⟨'-', natToChars (-n).toNat, by simp [intToChars, hn], Or.inl rfl⟩
  · simp only [intToChars, hn, if_false]
    cases hc : natToChars n.toNat with
    | nil => exact absurd hc (natToChars_ne_nil _)
    | cons d ds =>
      refine ⟨d, ds, rfl, Or.inr ?_⟩
      have hall := natToChars_digits n.toNat
      rw [hc] at hall
      exact hall d (by simp)

theorem json_dumps_head (v : Json) :
    ∃ c t, json_dumps v = c :: t ∧ wsJson c = false ∧ c ≠ ']' ∧ c ≠ '\x7d' := by
  cases v with
  | null => exact ⟨'n', _, rfl, by decide, by decide, by decide⟩
  | bool b =>
    cases b
    · exact ⟨'f', _, rfl, by decide, by decide, by decide⟩
    · exact ⟨'t', _, rfl, by decide, by decide, by decide⟩
  | num n =>
    obtain ⟨c, t, hd, hc⟩ := intToChars_head n
    refine ⟨c, t, by simp [json_dumps, hd], ?_, ?_, ?_⟩
    · rcases hc with rfl | hdig
      · decide
      · exact (isDigitB_props c hdig).1
    · rcases hc with rfl | hdig
      · decide
      · exact (isDigitB_props c hdig).2.2.2.2.2.2.2.1
    · rcases hc with rfl | hdig
      · decide
      · exact (isDigitB_props c hdig).2.2.2.2.2.2.2.2
  | str s => exact ⟨'"', escJson s ++ ['"'], rfl, by decide, by decide, by decide⟩
  | arr xs => exact ⟨'[', dumpsItems xs ++ [']'], rfl, by decide, by decide, by decide⟩
  | obj kvs => exact ⟨'\x7b', dumpsEntries kvs ++ ['\x7d'], rfl, by decide, by decide, by decide⟩

theorem dumpsItems_head (x : Json) (tl : List Json) :
    ∃ c t, dumpsItems (x :: tl) = c :: t ∧ wsJson c = false ∧ c ≠ ']' := by
  obtain ⟨c, t, hd, hw, hbr, _⟩ := json_dumps_head x
  cases tl with
  | nil => exact ⟨c, t, by simp [dumpsItems, hd], hw, hbr⟩
  | cons y tl2 =>
    exact ⟨c, t ++ ',' :: ' ' :: dumpsItems (y :: tl2), by simp [dumpsItems, hd], hw, hbr⟩

theorem skipWs_input (sp l rest : List Char) (hsp : allWs sp = true) (c : Char)
    (t : List Char) (hl : l = c :: t) (hc : wsJson c = false) :
    skipWs (sp ++ (l ++ rest)) = c :: (t ++ rest) := by
  subst hl
  rw [List.cons_append, skipWs_ws_append _ _ hsp, skipWs_cons_not _ _ hc]

theorem pyDictSet_append (acc : List (List Char × Json)) (k : List Char) (v : Json)
    (h : ∀ p ∈ acc, p.1 ≠ k) : pyDictSet acc k v = acc ++ [(k, v)] := by
  induction acc with
  | nil => rfl
  | cons p rest ih =>
    obtain ⟨k', v'⟩ := p
    have hk : k' ≠ k := h (k', v') (by simp)
    simp only [pyDictSet, hk, if_false, List.cons_append, ite_false]
    rw [ih (fun q hq => h q (by simp [hq]))]

theorem foldl_pyDictSet (kvs acc : List (List Char × Json))
    (hdisj : ∀ p ∈ acc, ∀ q ∈ kvs, p.1 ≠ q.1)
    (hk : distinctKeys (kvs.map (fun p => p.1)) = true) :
    kvs.foldl (fun a kv => pyDictSet a kv.1 kv.2) acc = acc ++ kvs := by
  induction kvs generalizing acc with
  | nil => simp
  | cons e tl ih =>
    obtain ⟨k, v⟩ := e
    simp only [List.map_cons, distinctKeys, Bool.and_eq_true, decide_eq_true_eq] at hk
    simp only [List.foldl_cons]
    rw [pyDictSet_append acc k v (fun p hp => hdisj p hp (k, v) (by simp))]
    rw [ih (acc ++ [(k, v)]) ?_ hk.2]
    · simp
    · intro p hp q hq
      rcases List.mem_append.mp hp with h1 | h1
      · exact hdisj p h1 q (by simp [hq])
      · simp only [List.mem_singleton] at h1
        subst h1
        intro hcontra
        exact hk.1 (by
          rw [show k = q.1 from hcontra]
          exact List.mem_map.mpr ⟨q, hq, rfl⟩)

theorem jsize_pos (v : Json) : 1 ≤ jsize v := by
  cases v <;> simp [jsize] <;> omega

theorem jsizeItems_pos (xs : List Json) (h : xs ≠ []) : 1 ≤ jsizeItems xs := by
  cases xs with
  | nil => exact absurd rfl h
  | cons x tl => simp [jsizeItems] <;> omega

theorem jsizeEntries_pos (kvs : List (List Char × Json)) (h : kvs ≠ []) :
    1 ≤ jsizeEntries kvs := by
  cases kvs with
  | nil => exact absurd rfl h
  | cons e tl =>
    obtain ⟨k, v⟩ := e
    simp [jsizeEntries] <;> omega

theorem skipWs_colon (l : List Char) : skipWs (':' :: l) = ':' :: l :=
  skipWs_cons_not _ _ (by decide)

theorem skipWs_comma (l : List Char) : skipWs (',' :: l) = ',' :: l :=
  skipWs_cons_not _ _ (by decide)

theorem skipWs_rbracket (l : List Char) : skipWs (']' :: l) = ']' :: l :=
  skipWs_cons_not _ _ (by decide)

theorem skipWs_rbrace (l : List Char) : skipWs ('\x7d' :: l) = '\x7d' :: l :=
  skipWs_cons_not _ _ (by decide)

theorem parse_json_dumps (fuel : Nat) :
    (∀ v sp rest, allWs sp = true → numberSafe rest = true → nodupKeys v = true →
       jsize v ≤ fuel → parseValue fuel (sp ++ (json_dumps v ++ rest)) = some (v, rest)) ∧
    (∀ xs sp rest, allWs sp = true → nodupKeysList xs = true → xs ≠ [] →
       jsizeItems xs ≤ fuel →
       parseArrayItems fuel (sp ++ (dumpsItems xs ++ ']' :: rest)) = some (xs, rest)) ∧
    (∀ kvs sp rest, allWs sp = true → nodupKeysEntries kvs = true → kvs ≠ [] →
       jsizeEntries kvs ≤ fuel →
       parseObjItems fuel (sp ++ (dumpsEntries kvs ++ '\x7d' :: rest)) = some (kvs, rest)) := by
  induction fuel with
  | zero =>
    refine ⟨?_, ?_, ?_⟩
    · intro v _ _ _ _ _ hsz
      exact absurd hsz (by have := jsize_pos v; omega)
    · intro xs _ _ _ _ hne hsz
      exact absurd hsz (by have := jsizeItems_pos xs hne; omega)
    · intro kvs _ _ _ _ hne hsz
      exact absurd hsz (by have := jsizeEntries_pos kvs hne; omega)
  | succ fuel ih =>
    obtain ⟨ih1, ih2, ih3⟩ := ih
    refine ⟨?_, ?_, ?_⟩
    · intro v sp rest hsp hrest hnd hsz
      cases v with
      | null =>
        simp only [parseValue]
        rw [skipWs_input sp (json_dumps Json.null) rest hsp 'n' ('u' :: 'l' :: 'l' :: []) rfl (by decide)]
        simp
      | bool b =>
        cases b
        · simp only [parseValue]
          rw [skipWs_input sp (json_dumps (Json.bool false)) rest hsp 'f' ('a' :: 'l' :: 's' :: 'e' :: []) rfl (by decide)]
          simp
        · simp only [parseValue]
          rw [skipWs_input sp (json_dumps (Json.bool true)) rest hsp 't' ('r' :: 'u' :: 'e' :: []) rfl (by decide)]
          simp
      | num n =>
        obtain ⟨c0, t, hd, hcase⟩ := intToChars_head n
        have hdj : json_dumps (Json.num n) = c0 :: t := by simp [json_dumps, hd]
        have hw : wsJson c0 = false := by
          rcases hcase with rfl | hdig
          · decide
          · exact (isDigitB_props c0 hdig).1
        have hn1 : c0 ≠ 'n' := by
          rcases hcase with rfl | hdig
          · decide
          · exact (isDigitB_props c0 hdig).2.1
        have hn2 : c0 ≠ 't' := by
          rcases hcase with rfl | hdig
          · decide
          · exact (isDigitB_props c0 hdig).2.2.1
        have hn3 : c0 ≠ 'f' := by
          rcases hcase with rfl | hdig
          · decide
          · exact (isDigitB_props c0 hdig).2.2.2.1
        have hn4 : c0 ≠ '"' := by
          rcases hcase with rfl | hdig
          · decide
          · exact (isDigitB_props c0 hdig).2.2.2.2.1
        have hn5 : c0 ≠ '[' := by
          rcases hcase with rfl | hdig
          · decide
          · exact (isDigitB_props c0 hdig).2.2.2.2.2.1
        have hn6 : c0 ≠ '\x7b' := by
          rcases hcase with rfl | hdig
          · decide
          · exact (isDigitB_props c0 hdig).2.2.2.2.2.2.1
        simp only [parseValue]
        rw [skipWs_input sp (json_dumps (Json.num n)) rest hsp c0 t hdj hw]
        simp only [hn1, hn2, hn3, hn4, hn5, hn6, ite_false, if_false, reduceIte]
        rw [show c0 :: (t ++ rest) = intToChars n ++ rest from by rw [← List.cons_append, ← hd]]
        rw [parseNumber_intToChars n rest hrest]
      | str s =>
        simp only [parseValue]
        rw [skipWs_input sp (json_dumps (Json.str s)) rest hsp '"' (escJson s ++ ['"']) rfl (by decide)]
        simp only [Char.reduceEq, reduceIte]
        rw [show (escJson s ++ ['"']) ++ rest = escJson s ++ '"' :: rest from by simp]
        rw [parseStringBody_escJson]
      | arr xs =>
        simp only [parseValue]
        rw [skipWs_input sp (json_dumps (Json.arr xs)) rest hsp '[' (dumpsItems xs ++ [']']) rfl (by decide)]
        simp only [Char.reduceEq, reduceIte]
        cases xs with
        | nil =>
          rw [show (dumpsItems [] ++ [']']) ++ rest = ']' :: rest from by simp [dumpsItems]]
          rw [skipWs_rbracket]
          rfl
        | cons x tl =>
          simp only [nodupKeys] at hnd
          simp only [jsize] at hsz
          obtain ⟨c1, t1, hd1, hw1, hne1⟩ := dumpsItems_head x tl
          rw [show (dumpsItems (x :: tl) ++ [']']) ++ rest = c1 :: (t1 ++ ']' :: rest) from by
            simp [hd1]]
          rw [skipWs_cons_not _ _ hw1]
          split
          · rename_i r heq
            injection heq with hcontra _
            exact absurd hcontra hne1
          · rw [show c1 :: (t1 ++ ']' :: rest) = [] ++ (dumpsItems (x :: tl) ++ ']' :: rest) from by
              simp [hd1]]
            rw [ih2 (x :: tl) [] rest rfl hnd (by simp) (by omega)]
      | obj kvs =>
        simp only [parseValue]
        rw [skipWs_input sp (json_dumps (Json.obj kvs)) rest hsp '\x7b' (dumpsEntries kvs ++ ['\x7d']) rfl (by decide)]
        simp only [Char.reduceEq, reduceIte]
        cases kvs with
        | nil =>
          rw [show (dumpsEntries [] ++ ['\x7d']) ++ rest = '\x7d' :: rest from by
            simp [dumpsEntries]]
          rw [skipWs_rbrace]
          rfl
        | cons e tl =>
          obtain ⟨k, v⟩ := e
          simp only [nodupKeys, Bool.and_eq_true] at hnd
          simp only [jsize] at hsz
          have hde : ∃ t2, dumpsEntries ((k, v) :: tl) = '"' :: t2 := by
            cases tl with
            | nil => exact ⟨_, rfl⟩
            | cons f tl2 => exact ⟨_, rfl⟩
          obtain ⟨t2, hd2⟩ := hde
          rw [show (dumpsEntries ((k, v) :: tl) ++ ['\x7d']) ++ rest =
              '"' :: (t2 ++ '\x7d' :: rest) from by simp [hd2]]
          rw [skipWs_cons_not _ _ (by decide)]
          split
          · rename_i r heq
            injection heq with hcontra _
            exact absurd hcontra (by decide)
          · rw [show '"' :: (t2 ++ '\x7d' :: rest) =
                [] ++ (dumpsEntries ((k, v) :: tl) ++ '\x7d' :: rest) from by simp [hd2]]
            rw [ih3 ((k, v) :: tl) [] rest rfl hnd.2 (by simp) (by omega)]
            have hfold := foldl_pyDictSet ((k, v) :: tl) []
              (fun p hp => absurd hp (List.not_mem_nil p)) hnd.1
            simp only [List.nil_append] at hfold
            simp [hfold]
    · intro xs sp rest hsp hnd hne hsz
      cases xs with
      | nil => exact absurd rfl hne
      | cons x tl =>
        simp only [nodupKeysList, Bool.and_eq_true] at hnd
        simp only [parseArrayItems]
        cases tl with
        | nil =>
          simp only [jsizeItems] at hsz
          rw [show sp ++ (dumpsItems [x] ++ ']' :: rest) =
              sp ++ (json_dumps x ++ (']' :: rest)) from by simp [dumpsItems]]
          rw [ih1 x sp (']' :: rest) hsp rfl hnd.1 (by omega)]
          simp only [skipWs_rbracket]
        | cons y tl2 =>
          simp only [jsizeItems] at hsz
          rw [show sp ++ (dumpsItems (x :: y :: tl2) ++ ']' :: rest) =
              sp ++ (json_dumps x ++ (',' :: ' ' :: (dumpsItems (y :: tl2) ++ ']' :: rest)))
              from by simp [dumpsItems]]
          rw [ih1 x sp (',' :: ' ' :: (dumpsItems (y :: tl2) ++ ']' :: rest)) hsp rfl hnd.1
            (by omega)]
          simp only [skipWs_comma]
          rw [show parseArrayItems fuel (' ' :: (dumpsItems (y :: tl2) ++ ']' :: rest)) =
              parseArrayItems fuel ([' '] ++ (dumpsItems (y :: tl2) ++ ']' :: rest)) from rfl]
          rw [ih2 (y :: tl2) [' '] rest rfl hnd.2 (by simp)
            (by simp only [jsizeItems]; omega)]
    · intro kvs sp rest hsp hnd hne hsz
      cases kvs with
      | nil => exact absurd rfl hne
      | cons e tl =>
        obtain ⟨k, v⟩ := e
        simp only [nodupKeysEntries, Bool.and_eq_true] at hnd
        simp only [jsizeEntries] at hsz
        simp only [parseObjItems]
        cases tl with
        | nil =>
          rw [show sp ++ (dumpsEntries [(k, v)] ++ '\x7d' :: rest) =
              sp ++ ('"' :: (escJson k ++ '"' :: (':' :: ' ' :: (json_dumps v ++ '\x7d' :: rest))))
              from by simp [dumpsEntries]]
          rw [skipWs_ws_append _ _ hsp, skipWs_cons_not _ _ (by decide)]
          simp only [parseStringBody_escJson, skipWs_colon]
          rw [show parseValue fuel (' ' :: (json_dumps v ++ '\x7d' :: rest)) =
              parseValue fuel ([' '] ++ (json_dumps v ++ '\x7d' :: rest)) from rfl]
          rw [ih1 v [' '] ('\x7d' :: rest) rfl rfl hnd.1 (by omega)]
          simp only [skipWs_rbrace]
        | cons f tl2 =>
          rw [show sp ++ (dumpsEntries ((k, v) :: f :: tl2) ++ '\x7d' :: rest) =
              sp ++ ('"' :: (escJson k ++ '"' :: (':' :: ' ' :: (json_dumps v ++
                (',' :: ' ' :: (dumpsEntries (f :: tl2) ++ '\x7d' :: rest))))))
              from by simp [dumpsEntries]]
          rw [skipWs_ws_append _ _ hsp, skipWs_cons_not _ _ (by decide)]
          simp only [parseStringBody_escJson, skipWs_colon]
          rw [show parseValue fuel (' ' :: (json_dumps v ++
                (',' :: ' ' :: (dumpsEntries (f :: tl2) ++ '\x7d' :: rest)))) =
              parseValue fuel ([' '] ++ (json_dumps v ++
                (',' :: ' ' :: (dumpsEntries (f :: tl2) ++ '\x7d' :: rest)))) from rfl]
          rw [ih1 v [' ']
            (',' :: ' ' :: (dumpsEntries (f :: tl2) ++ '\x7d' :: rest)) rfl rfl hnd.1
            (by omega)]
          simp only [skipWs_comma]
          rw [show parseObjItems fuel (' ' :: (dumpsEntries (f :: tl2) ++ '\x7d' :: rest)) =
              parseObjItems fuel ([' '] ++ (dumpsEntries (f :: tl2) ++ '\x7d' :: rest)) from rfl]
          rw [ih3 (f :: tl2) [' '] rest rfl hnd.2 (by simp) (by omega)]

theorem intToChars_ne_nil (n : Int) : intToChars n ≠ [] := by
  unfold intToChars
  split
  · simp
  · exact natToChars_ne_nil _

theorem json_sizeOf_pos (v : Json) : 1 ≤ sizeOf v := by
  cases v <;> simp <;> omega

theorem list_sizeOf_pos {A : Type} [SizeOf A] (l : List A) : 1 ≤ sizeOf l := by
  cases l <;> simp <;> omega

theorem jsize_le_dumps_aux (N : Nat) :
    (∀ v : Json, sizeOf v ≤ N → jsize v ≤ (json_dumps v).length) ∧
    (∀ xs : List Json, sizeOf xs ≤ N → jsizeItems xs ≤ (dumpsItems xs).length + 1) ∧
    (∀ kvs : List (List Char × Json), sizeOf kvs ≤ N →
       jsizeEntries kvs ≤ (dumpsEntries kvs).length + 1) := by
  induction N with
  | zero =>
    refine ⟨?_, ?_, ?_⟩
    · intro v hv
      exact absurd hv (by have := json_sizeOf_pos v; omega)
    · intro xs hxs
      exact absurd hxs (by cases xs <;> simp <;> omega)
    · intro kvs hkvs
      exact absurd hkvs (by cases kvs <;> simp <;> omega)
  | succ N ihN =>
    obtain ⟨j1, j2, j3⟩ := ihN
    refine ⟨?_, ?_, ?_⟩
    · intro v hv
      cases v with
      | null => simp [jsize, json_dumps]
      | bool b => cases b <;> simp [jsize, json_dumps]
      | num n =>
        have hne := intToChars_ne_nil n
        have hlen : 1 ≤ (intToChars n).length := by
          cases hc : intToChars n with
          | nil => exact absurd hc hne
          | cons c t => simp
        simp only [jsize, json_dumps]
        omega
      | str s => simp [jsize, json_dumps]
      | arr xs =>
        have hx : sizeOf xs ≤ N := by
          have hs : sizeOf (Json.arr xs) = 1 + sizeOf xs := by simp
          omega
        have hitems := j2 xs hx
        simp only [jsize, json_dumps, List.length_cons, List.length_append,
          List.length_singleton]
        omega
      | obj kvs =>
        have hx : sizeOf kvs ≤ N := by
          have hs : sizeOf (Json.obj kvs) = 1 + sizeOf kvs := by simp
          omega
        have hentries := j3 kvs hx
        simp only [jsize, json_dumps, List.length_cons, List.length_append,
          List.length_singleton]
        omega
    · intro xs hxs
      cases xs with
      | nil => simp [jsizeItems, dumpsItems]
      | cons x tl =>
        have hsz : sizeOf (x :: tl : List Json) = 1 + sizeOf x + sizeOf tl := by simp
        have hx : sizeOf x ≤ N := by
          have := list_sizeOf_pos tl
          omega
        have htl : sizeOf tl ≤ N := by
          have := json_sizeOf_pos x
          omega
        have h1 := j1 x hx
        cases tl with
        | nil =>
          simp only [jsizeItems, dumpsItems]
          omega
        | cons y tl2 =>
          have h2 := j2 (y :: tl2) htl
          simp only [jsizeItems, dumpsItems, List.length_append, List.length_cons]
          simp only [jsizeItems] at h2
          omega
    · intro kvs hkvs
      cases kvs with
      | nil => simp [jsizeEntries, dumpsEntries]
      | cons e tl =>
        obtain ⟨k, v⟩ := e
        have hsz : sizeOf ((k, v) :: tl : List (List Char × Json)) =
            1 + (1 + sizeOf k + sizeOf v) + sizeOf tl := by simp
        have hx : sizeOf v ≤ N := by
          have := list_sizeOf_pos tl
          omega
        have htl : sizeOf tl ≤ N := by
          have := json_sizeOf_pos v
          omega
        have h1 := j1 v hx
        cases tl with
        | nil =>
          simp only [jsizeEntries, dumpsEntries, List.length_cons, List.length_append]
          omega
        | cons f tl2 =>
          have h2 := j3 (f :: tl2) htl
          simp only [jsizeEntries, dumpsEntries, List.length_append, List.length_cons]
          simp only [jsizeEntries] at h2
          omega

theorem jsize_le_dumps (v : Json) : jsize v ≤ (json_dumps v).length :=
  (jsize_le_dumps_aux (sizeOf v)).1 v le_rfl

theorem json_loads_dumps (v : Json) (h : nodupKeys v = true) :
    json_loads (String.mk (json_dumps v)) = some v := by
  have hsz : jsize v ≤ 2 * (json_dumps v).length + 2 := by
    have := jsize_le_dumps v
    omega
  have hp := (parse_json_dumps (2 * (json_dumps v).length + 2)).1 v [] [] rfl rfl h hsz
  simp only [List.nil_append, List.append_nil] at hp
  unfold json_loads
  have hd : (String.mk (json_dumps v)).data = json_dumps v := rfl
  rw [hd, hp]
  simp [skipWs]

theorem html_escape_append (l1 l2 : List Char) :
    html_escape (l1 ++ l2) = html_escape l1 ++ html_escape l2 := by
  induction l1 with
  | nil => rfl
  | cons c l ih => simp [html_escape, ih]

theorem escHtmlChar_no_angle (c : Char) :
    '<' ∉ escHtmlChar c ∧ '>' ∉ escHtmlChar c := by
  unfold escHtmlChar
  by_cases h1 : c = '&'
  · simp [h1]
  by_cases h2 : c = '<'
  · simp [h1, h2]
  by_cases h3 : c = '>'
  · simp [h1, h2, h3]
  by_cases h4 : c = '"'
  · simp [h1, h2, h3, h4]
  by_cases h5 : c = '\''
  · simp [h1, h2, h3, h4, h5]
  · simp [h1, h2, h3, h4, h5]
    exact ⟨fun hc => h2 hc.symm, fun hc => h3 hc.symm⟩

theorem html_escape_no_angle (l : List Char) :
    '<' ∉ html_escape l ∧ '>' ∉ html_escape l := by
  induction l with
  | nil => simp [html_escape]
  | cons c l ih =>
    have hc := escHtmlChar_no_angle c
    constructor
    · simp only [html_escape, List.mem_append]
      rintro (h | h)
      · exact hc.1 h
      · exact ih.1 h
    · simp only [html_escape, List.mem_append]
      rintro (h | h)
      · exact hc.2 h
      · exact ih.2 h

theorem wellEscaped_chunk (c : Char) (r : List Char) :
    wellEscaped (escHtmlChar c ++ r) = wellEscaped r := by
  unfold escHtmlChar
  by_cases h1 : c = '&'
  · simp only [h1, if_true, reduceIte, List.cons_append, List.nil_append]
    rw [wellEscaped.eq_def]
    simp [Char.reduceEq]
  by_cases h2 : c = '<'
  · simp only [h1, h2, reduceIte, ite_false, if_true, ite_true, List.cons_append,
      List.nil_append]
    rw [wellEscaped.eq_def]
    simp [Char.reduceEq]
  by_cases h3 : c = '>'
  · simp only [h1, h2, h3, reduceIte, ite_false, ite_true, List.cons_append, List.nil_append]
    rw [wellEscaped.eq_def]
    simp [Char.reduceEq]
  by_cases h4 : c = '"'
  · simp only [h1, h2, h3, h4, reduceIte, ite_false, ite_true, List.cons_append,
      List.nil_append]
    rw [wellEscaped.eq_def]
    simp [Char.reduceEq]
  by_cases h5 : c = '\''
  · simp only [h1, h2, h3, h4, h5, reduceIte, ite_false, ite_true, List.cons_append,
      List.nil_append]
    rw [wellEscaped.eq_def]
    simp [Char.reduceEq]
  · simp only [h1, h2, h3, h4, h5, ite_false, List.cons_append, List.nil_append]
    rw [wellEscaped.eq_def]
    simp [h1, h2, h3]

theorem wellEscaped_html_escape (l : List Char) : wellEscaped (html_escape l) = true := by
  induction l with
  | nil =>
    show wellEscaped [] = true
    rw [wellEscaped.eq_def]
  | cons c l ih =>
    have := wellEscaped_chunk c (html_escape l)
    simp only [html_escape]
    rw [this, ih]

theorem dropWhile_all_false (p : Char → Bool) (l : List Char)
    (h : ∀ c ∈ l, p c = false) : l.dropWhile p = l := by
  cases l with
  | nil => rfl
  | cons a as => simp [List.dropWhile_cons, h a (by simp)]

theorem pyStrip_eq_self (l : List Char) (h : ∀ c ∈ l, pySpace c = false) :
    pyStrip l = l := by
  unfold pyStrip
  rw [dropWhile_all_false _ _ h]
  rw [dropWhile_all_false _ _ (fun c hc => h c (List.mem_reverse.mp hc))]
  exact List.reverse_reverse l

theorem replicate_a_no_space (n : Nat) (l : List Char) (hl : ∀ c ∈ l, pySpace c = false) :
    ∀ c ∈ List.replicate n 'a' ++ l, pySpace c = false := by
  intro c hc
  rcases List.mem_append.mp hc with h | h
  · rw [List.eq_of_mem_replicate h]
    decide
  · exact hl c h

theorem html_escape_replicate_a (n : Nat) (l : List Char) :
    html_escape (List.replicate n 'a' ++ l) = List.replicate n 'a' ++ html_escape l := by
  induction n with
  | zero => simp
  | succ n ih =>
    simp only [List.replicate_succ, List.cons_append, html_escape, List.append_eq]
    rw [show escHtmlChar 'a' = ['a'] from rfl, ih]
    rfl

theorem wellEscaped_replicate_a (n : Nat) (l : List Char) :
    wellEscaped (List.replicate n 'a' ++ l) = wellEscaped l := by
  induction n with
  | zero => simp
  | succ n ih =>
    simp only [List.replicate_succ, List.cons_append]
    rw [wellEscaped.eq_def]
    simp only [Char.reduceEq, reduceIte, ite_false]
    exact ih

theorem lexLe_total (a b : List Char) : lexLe a b = true ∨ lexLe b a = true := by
  induction a generalizing b with
  | nil => left; rfl
  | cons x xs ih =>
    cases b with
    | nil => right; rfl
    | cons y ys =>
      by_cases h1 : x.toNat < y.toNat
      · left; simp [lexLe, h1]
      · by_cases h2 : y.toNat < x.toNat
        · right; simp [lexLe, h2]
        · rcases ih ys with h | h
          · left; simp [lexLe, h1, h2, h]
          · right; simp [lexLe, h1, h2, h]

theorem find?_append_none {A : Type} (p : A → Bool) (l1 l2 : List A)
    (h : l1.find? p = none) : (l1 ++ l2).find? p = l2.find? p := by
  induction l1 with
  | nil => rfl
  | cons a l ih =>
    rw [List.find?_cons] at h
    rw [List.cons_append, List.find?_cons]
    split at h
    · exact absurd h (by simp)
    · exact ih h

theorem find?_filter_ne_none (rows : List UserRow) (uid : String) :
    (rows.filter (fun r => decide (r.id ≠ uid))).find? (fun r => r.id = uid) = none := by
  rw [List.find?_eq_none]
  intro r hr
  have := (List.mem_filter.mp hr).2
  simp at this
  simp [this]

theorem json_dumps_ne_nil (v : Json) : json_dumps v ≠ [] := by
  obtain ⟨c, t, hd, _⟩ := json_dumps_head v
  rw [hd]
  simp

theorem mkString_dumps_ne_empty (v : Json) : String.mk (json_dumps v) ≠ "" := by
  intro hc
  exact json_dumps_ne_nil v (congrArg String.data hc)

theorem rowToProfile_saved (p : Profile) (h : nodupKeys p.meta = true) :
    rowToProfile ⟨p.id, p.name, p.email, p.phone,
      some (String.mk (json_dumps p.meta)), p.created_at⟩ = .ok p := by
  unfold rowToProfile
  simp only [if_neg (mkString_dumps_ne_empty p.meta)]
  rw [json_loads_dumps p.meta h]

theorem rowToProfile_empty_meta (r : UserRow) (h : r.metaText = none ∨ r.metaText = some "") :
    rowToProfile r = .ok ⟨r.id, r.name, r.email, r.phone, Json.obj [], r.created_at⟩ := by
  unfold rowToProfile
  rcases h with h | h <;> rw [h]
  simp

theorem rowToProfile_created_at (r : UserRow) (p : Profile)
    (h : rowToProfile r = .ok p) : p.created_at = r.created_at := by
  unfold rowToProfile at h
  split at h
  · injection h with h1
    rw [← h1]
  · split at h
    · injection h with h1
      rw [← h1]
    · split at h
      · injection h with h1
        rw [← h1]
      · exact absurd h (by simp)

theorem rowToProfile_meta_obj (r : UserRow) (p : Profile)
    (hmeta : r.metaText = none ∨ r.metaText = some "" ∨
      ∃ kvs, r.metaText = some (String.mk (json_dumps (Json.obj kvs))) ∧
        nodupKeys (Json.obj kvs) = true)
    (h : rowToProfile r = .ok p) : ∃ kvs, p.meta = Json.obj kvs := by
  rcases hmeta with hm | hm | ⟨kvs, hm, hnd⟩
  · rw [rowToProfile_empty_meta r (Or.inl hm)] at h
    injection h with h1
    exact ⟨[], by rw [← h1]⟩
  · rw [rowToProfile_empty_meta r (Or.inr hm)] at h
    injection h with h1
    exact ⟨[], by rw [← h1]⟩
  · unfold rowToProfile at h
    rw [hm] at h
    simp only [if_neg (mkString_dumps_ne_empty (Json.obj kvs))] at h
    rw [json_loads_dumps (Json.obj kvs) hnd] at h
    injection h with h1
    exact ⟨kvs, by rw [← h1]⟩

theorem mem_insertByCreatedDesc (r y : UserRow) (l : List UserRow) :
    y ∈ insertByCreatedDesc r l ↔ y = r ∨ y ∈ l := by
  induction l with
  | nil => simp [insertByCreatedDesc]
  | cons x xs ih =>
    unfold insertByCreatedDesc
    split
    · simp
    · simp [ih]
      tauto

theorem chain'_insertByCreatedDesc (r : UserRow) (l : List UserRow)
    (h : List.Chain' (fun a b => lexLe b.created_at.data a.created_at.data = true) l) :
    List.Chain' (fun a b => lexLe b.created_at.data a.created_at.data = true)
      (insertByCreatedDesc r l) ∧
    (∀ y, (insertByCreatedDesc r l).head? = some y → y = r ∨ l.head? = some y) := by
  induction l with
  | nil =>
    refine ⟨by simp [insertByCreatedDesc], ?_⟩
    intro y hy
    simp [insertByCreatedDesc] at hy
    exact Or.inl hy.symm
  | cons x xs ih =>
    rw [List.chain'_cons'] at h
    obtain ⟨hhead, htail⟩ := h
    obtain ⟨ihc, ihh⟩ := ih htail
    unfold insertByCreatedDesc
    split
    · rename_i hcond
      refine ⟨?_, ?_⟩
      · rw [List.chain'_cons']
        refine ⟨?_, List.chain'_cons'.mpr ⟨hhead, htail⟩⟩
        intro y hy
        simp at hy
        rw [← hy]
        exact hcond
      · intro y hy
        simp at hy
        exact Or.inl hy.symm
    · rename_i hcond
      have hxr : lexLe r.created_at.data x.created_at.data = true := by
        rcases lexLe_total x.created_at.data r.created_at.data with h | h
        · exact absurd h hcond
        · exact h
      refine ⟨?_, ?_⟩
      · rw [List.chain'_cons']
        refine ⟨?_, ihc⟩
        intro y hy
        rcases ihh y hy with h1 | h1
        · rw [h1]
          exact hxr
        · exact hhead y h1
      · intro y hy
        simp at hy
        right
        rw [hy]
        simp

theorem chain'_sortByCreatedDesc (rows : List UserRow) :
    List.Chain' (fun a b => lexLe b.created_at.data a.created_at.data = true)
      (sortByCreatedDesc rows) := by
  induction rows with
  | nil => simp [sortByCreatedDesc]
  | cons r rest ih =>
    exact (chain'_insertByCreatedDesc r (sortByCreatedDesc rest) ih).1

theorem mem_sortByCreatedDesc (rows : List UserRow) (y : UserRow) :
    y ∈ sortByCreatedDesc rows ↔ y ∈ rows := by
  induction rows with
  | nil => simp [sortByCreatedDesc]
  | cons r rest ih =>
    show y ∈ insertByCreatedDesc r (sortByCreatedDesc rest) ↔ _
    rw [mem_insertByCreatedDesc, ih]
    simp

theorem length_insertByCreatedDesc (r : UserRow) (l : List UserRow) :
    (insertByCreatedDesc r l).length = l.length + 1 := by
  induction l with
  | nil => rfl
  | cons x xs ih =>
    unfold insertByCreatedDesc
    split
    · simp
    · simp [ih]

theorem length_sortByCreatedDesc (rows : List UserRow) :
    (sortByCreatedDesc rows).length = rows.length := by
  induction rows with
  | nil => rfl
  | cons r rest ih =>
    show (insertByCreatedDesc r (sortByCreatedDesc rest)).length = _
    rw [length_insertByCreatedDesc, ih]
    rfl

theorem mapRows_cons_ok (r : UserRow) (rest : List UserRow) (l : List Profile)
    (h : mapRows (r :: rest) = .ok l) :
    ∃ p l', rowToProfile r = .ok p ∧ mapRows rest = .ok l' ∧ l = p :: l' := by
  unfold mapRows at h
  split at h
  · exact absurd h (by simp)
  · rename_i p hp
    split at h
    · exact absurd h (by simp)
    · rename_i l' hl'
      injection h with h1
      exact ⟨p, l', hp, hl', h1.symm⟩

theorem mapRows_length (rows : List UserRow) (l : List Profile)
    (h : mapRows rows = .ok l) : l.length = rows.length := by
  induction rows generalizing l with
  | nil =>
    unfold mapRows at h
    injection h with h1
    rw [← h1]
    rfl
  | cons r rest ih =>
    obtain ⟨p, l', _, hl', rfl⟩ := mapRows_cons_ok r rest l h
    simp [ih l' hl']

theorem mapRows_mem (rows : List UserRow) (l : List Profile)
    (h : mapRows rows = .ok l) :
    ∀ p ∈ l, ∃ r ∈ rows, rowToProfile r = .ok p := by
  induction rows generalizing l with
  | nil =>
    unfold mapRows at h
    injection h with h1
    rw [← h1]
    intro p hp
    exact absurd hp (List.not_mem_nil p)
  | cons r rest ih =>
    obtain ⟨q, l', hq, hl', rfl⟩ := mapRows_cons_ok r rest l h
    intro p hp
    rcases List.mem_cons.mp hp with rfl | hp2
    · exact ⟨r, by simp, hq⟩
    · obtain ⟨r2, hr2, hr2p⟩ := ih l' hl' p hp2
      exact ⟨r2, by simp [hr2], hr2p⟩

theorem mapRows_chain' (rows : List UserRow) (l : List Profile)
    (h : mapRows rows = .ok l)
    (hc : List.Chain' (fun a b => lexLe b.created_at.data a.created_at.data = true) rows) :
    List.Chain' (fun a b : Profile => lexLe b.created_at.data a.created_at.data = true) l := by
  induction rows generalizing l with
  | nil =>
    unfold mapRows at h
    injection h with h1
    rw [← h1]
    simp
  | cons r rest ih =>
    obtain ⟨p, l', hp, hl', rfl⟩ := mapRows_cons_ok r rest l h
    rw [List.chain'_cons']
    rw [List.chain'_cons'] at hc
    refine ⟨?_, ih l' hl' hc.2⟩
    intro q hq
    cases rest with
    | nil =>
      unfold mapRows at hl'
      injection hl' with h2
      rw [← h2] at hq
      simp at hq
    | cons r2 rest2 =>
      obtain ⟨q2, l2, hq2, _, rfl⟩ := mapRows_cons_ok r2 rest2 l' hl'
      simp at hq
      rw [← hq]
      have h1 := rowToProfile_created_at r p hp
      have h2 := rowToProfile_created_at r2 q2 hq2
      rw [h1, h2]
      exact hc.1 r2 (by simp)

theorem submitTurn_ok_all (env : TurnEnv) (h : env.saveOk = fun _ => true) :
    submitTurn env = .ok (assistantText env,
      (env.db0 ++ (if env.remember then [mkUserConv env] else [])) ++ [mkAssistantConv env]) := by
  unfold submitTurn save_message
  rw [h]
  cases hr : env.remember <;>
    simp [Bind.bind, Except.bind, pure, Except.pure]

/-- C3 (amended): a `save_message` failure while persisting the user message
aborts the chat turn — the exception propagates out of `companion_chat_ui`,
reply generation does not run and no text is returned; there is no
non-fatal-warning path for storage failures in the source. -/
theorem submitTurn_user_save_fails (env : TurnEnv) (hr : env.remember = true)
    (hf : env.saveOk (mkUserConv env) = false) :
    submitTurn env = .error .storageError := by
  unfold submitTurn save_message
  rw [hr]
  simp [hf, Bind.bind, Except.bind]

theorem generated_by_of_assistant (env : TurnEnv) :
    pyGet (mkAssistantConv env).metadata "generated_by" Json.null =
      Json.str (if env.openaiKey = "" then "mock_lbm".data else "openai_proxy".data) := by
  unfold mkAssistantConv pyGet jsonLookup
  simp

theorem assistantText_fallback (env : TurnEnv) (hk : env.openaiKey ≠ "")
    (hf : extFailed env.ext = true) :
    assistantText env = mock_lbm_response env.user env.prompt := by
  unfold assistantText
  rw [if_neg hk]
  cases hc : env.ext with
  | ok content =>
    rw [hc] at hf
    exact absurd hf (by simp [extFailed])
  | httpError status => rfl
  | exn msg => rfl

theorem assistantText_nokey (env : TurnEnv) (hk : env.openaiKey = "") :
    assistantText env = mock_lbm_response env.user env.prompt := by
  unfold assistantText
  rw [if_pos hk]

theorem techFor_absent (env : TurnEnv)
    (h : jsonLookup env.user.meta "allow_tech_info" = none) :
    techFor env = detect_tech_info env.ipResult env.browserInput := by
  unfold techFor pyGet
  rw [h]
  rfl

theorem techFor_explicit (env : TurnEnv) (b : Bool)
    (h : jsonLookup env.user.meta "allow_tech_info" = some (Json.bool b)) :
    techFor env = if b then detect_tech_info env.ipResult env.browserInput
      else Json.obj [] := by
  unfold techFor pyGet
  rw [h]
  cases b <;> rfl

theorem detect_tech_info_ne_empty (ip : Option String) (browser : String) :
    detect_tech_info ip browser ≠ Json.obj [] := by
  unfold detect_tech_info
  intro h
  injection h with h1
  exact absurd h1 (by simp)

/-- C1 (counterexample): with an OpenAI key supplied and the external call
raising a timeout, the text persisted and returned is exactly the local
`mock_lbm_response` output, yet the persisted assistant message's
`generated_by` is `"openai_proxy"` (the external tag), not `"mock_lbm"` (the
mock tag) — the tag records key presence, not the path that produced the
text, so Scenario C of the specification fails on the code. -/
theorem submitTurn_timeout_mislabels_generator :
    assistantText envKeyTimeout = mock_lbm_response profAva "hello" ∧
    submitTurn envKeyTimeout = .ok (mock_lbm_response profAva "hello",
      [mkUserConv envKeyTimeout, mkAssistantConv envKeyTimeout]) ∧
    pyGet (mkAssistantConv envKeyTimeout).metadata "generated_by" Json.null =
      Json.str "openai_proxy".data ∧
    "openai_proxy" ≠ "mock_lbm" := by
  refine ⟨rfl, rfl, rfl, by decide⟩

/-- C1 (amended): the persisted assistant message's `metadata.generated_by`
depends only on whether an OpenAI key was supplied: `"mock_lbm"` when the
key field is empty and `"openai_proxy"` whenever a key is present, even when
the external call failed and the local generator produced the text. -/
theorem generated_by_records_key_presence (env : TurnEnv)
    (h : env.saveOk = fun _ => true) :
    submitTurn env = .ok (assistantText env,
      (env.db0 ++ (if env.remember then [mkUserConv env] else [])) ++ [mkAssistantConv env]) ∧
    pyGet (mkAssistantConv env).metadata "generated_by" Json.null =
      Json.str (if env.openaiKey = "" then "mock_lbm".data else "openai_proxy".data) :=
  ⟨submitTurn_ok_all env h, generated_by_of_assistant env⟩

theorem generated_by_records_key_presence_witness :
    submitTurn envNoKey = .ok (assistantText envNoKey,
      ([] ++ [mkUserConv envNoKey]) ++ [mkAssistantConv envNoKey]) ∧
    pyGet (mkAssistantConv envNoKey).metadata "generated_by" Json.null =
      Json.str "mock_lbm".data :=
  generated_by_records_key_presence envNoKey rfl

/-- C2 (counterexample): for the input of 999 `a`s followed by `<` — a string
containing `<` whose escaped form is 1003 characters — the `[:1000]`
truncation cuts the final `&lt;` entity after its `&`, so the echoed portion
ends in a literal `&` that is not part of any escaped form. -/
theorem echoed_truncation_leaves_literal_amp :
    '<' ∈ sCut.data ∧
    echoedData sCut = List.replicate 999 'a' ++ ['&'] ∧
    wellEscaped (echoedData sCut) = false := by
  have hdata : sCut.data = List.replicate 999 'a' ++ ['<'] := rfl
  have hstrip : pyStrip sCut.data = List.replicate 999 'a' ++ ['<'] := by
    rw [hdata]
    exact pyStrip_eq_self _
      (replicate_a_no_space 999 ['<'] (by intro c hc; simp at hc; rw [hc]; decide))
  have hesc : html_escape (pyStrip sCut.data) =
      List.replicate 999 'a' ++ ('&' :: 'l' :: 't' :: ';' :: []) := by
    rw [hstrip, html_escape_replicate_a]
    rfl
  have hech : echoedData sCut = List.replicate 999 'a' ++ ['&'] := by
    unfold echoedData
    rw [hesc, List.take_append_eq_append_take,
      List.take_of_length_le (by rw [List.length_replicate]; omega),
      List.length_replicate]
    rfl
  refine ⟨?_, hech, ?_⟩
  · rw [hdata]
    exact List.mem_append_right _ (by simp)
  · rw [hech, wellEscaped_replicate_a]
    rw [wellEscaped.eq_def]
    simp [Char.reduceEq]

/-- C2 (amended): for every input containing `<`, `>` or `&`, the echoed
portion never contains a literal `<` or `>`; and whenever the escaped
trimmed input fits in the 1000-character cap (no truncation), every `&` in
the echoed portion starts one of the five `html.escape` entities. -/
theorem echoed_escapes_specials (s : String)
    (hs : '<' ∈ s.data ∨ '>' ∈ s.data ∨ '&' ∈ s.data) :
    '<' ∉ echoedData s ∧ '>' ∉ echoedData s ∧
    ((html_escape (pyStrip s.data)).length ≤ 1000 →
      wellEscaped (echoedData s) = true) := by
  refine ⟨?_, ?_, ?_⟩
  · intro h
    exact (html_escape_no_angle (pyStrip s.data)).1 (List.mem_of_mem_take h)
  · intro h
    exact (html_escape_no_angle (pyStrip s.data)).2 (List.mem_of_mem_take h)
  · intro hlen
    unfold echoedData
    rw [List.take_of_length_le hlen]
    exact wellEscaped_html_escape _

theorem echoed_escapes_specials_witness :
    ('<' ∈ ("a<b" : String).data) ∧
    (html_escape (pyStrip ("a<b" : String).data)).length ≤ 1000 ∧
    '<' ∉ echoedData "a<b" ∧ '>' ∉ echoedData "a<b" ∧
    wellEscaped (echoedData "a<b") = true := by
  have T := echoed_escapes_specials "a<b" (Or.inl (by decide))
  exact ⟨by decide, by decide, T.1, T.2.1, T.2.2 (by decide)⟩

/-- C3 (counterexample): with the conversation-log checkbox set and a store
whose inserts fail, the turn raises `StorageError` — generation never runs
and no text is returned, contradicting the claim that a persist failure is a
non-fatal warning. -/
theorem store_down_aborts_turn :
    envStoreDown.remember = true ∧
    submitTurn envStoreDown = .error .storageError :=
  ⟨rfl, rfl⟩

theorem submitTurn_user_save_fails_witness :
    envStoreDown.remember = true ∧
    envStoreDown.saveOk (mkUserConv envStoreDown) = false ∧
    submitTurn envStoreDown = .error .storageError :=
  ⟨rfl, rfl, submitTurn_user_save_fails envStoreDown rfl rfl⟩

/-- C4: the reply generator is deterministic — it is a pure function of the
profile and the input text, with no dependence on randomness, the clock or
other hidden state, so equal inputs give equal outputs. -/
theorem mock_lbm_response_deterministic (p1 p2 : Profile) (s1 s2 : String)
    (hp : p1 = p2) (hs : s1 = s2) :
    mock_lbm_response p1 s1 = mock_lbm_response p2 s2 := by
  rw [hp, hs]

theorem mock_lbm_response_deterministic_witness :
    profAva = profAva ∧ ("hello" : String) = "hello" ∧
    mock_lbm_response profAva "hello" = mock_lbm_response profAva "hello" :=
  ⟨rfl, rfl, mock_lbm_response_deterministic profAva profAva "hello" "hello" rfl rfl⟩

/-- C5: store round trip — after `save_user`, `fetch_user` on the same id
returns the profile field for field; in particular the `meta` mapping
survives `json.dumps` serialization and `json.loads` parsing unchanged.
The hypothesis states that `meta` is mapping-shaped (no duplicate keys at
any level), which holds for every value a Python dict can be. -/
theorem putProfile_getProfile_roundtrip (rows : List UserRow) (p : Profile)
    (h : nodupKeys p.meta = true) :
    fetch_user (save_user rows p) p.id = .ok (some p) := by
  unfold fetch_user save_user
  rw [find?_append_none _ _ _ (find?_filter_ne_none rows p.id)]
  have hfind : List.find? (fun r => r.id = p.id)
      [(⟨p.id, p.name, p.email, p.phone, some (String.mk (json_dumps p.meta)),
        p.created_at⟩ : UserRow)] =
      some ⟨p.id, p.name, p.email, p.phone, some (String.mk (json_dumps p.meta)),
        p.created_at⟩ := by
    simp
  rw [hfind]
  simp only [rowToProfile_saved p h]

theorem putProfile_getProfile_roundtrip_witness :
    nodupKeys profAva.meta = true ∧
    fetch_user (save_user [] profAva) profAva.id = .ok (some profAva) :=
  ⟨by decide, putProfile_getProfile_roundtrip [] profAva (by decide)⟩

/-- C6: when the trimmed input is longer than 1000 characters, the echoed
portion (the text after the `"> "` prefix) is truncated to at most 1000
characters. -/
theorem echoed_portion_length_le_1000 (s : String)
    (h : 1000 < (pyStrip s.data).length) :
    (String.mk (echoedData s)).length ≤ 1000 := by
  show (echoedData s).length ≤ 1000
  unfold echoedData
  rw [List.length_take]
  exact min_le_left _ _

theorem echoed_portion_length_le_1000_witness :
    1000 < (pyStrip sLong.data).length ∧
    (String.mk (echoedData sLong)).length ≤ 1000 := by
  have h : pyStrip sLong.data = List.replicate 1001 'a' := by
    rw [show sLong.data = List.replicate 1001 'a' from rfl]
    exact pyStrip_eq_self _ (fun c hc => by rw [List.eq_of_mem_replicate hc]; decide)
  have hlen : 1000 < (pyStrip sLong.data).length := by
    rw [h, List.length_replicate]
    omega
  exact ⟨hlen, echoed_portion_length_le_1000 sLong hlen⟩

/-- C7: when a key is supplied and the external call fails in any way
(non-200 status, raised exception — covering network errors, timeouts and
malformed bodies), the turn's text is exactly the local generator's output,
identical to the no-key path for the same profile and prompt, and
`submitTurn` still returns a result whenever the store itself is healthy. -/
theorem external_failure_falls_back (env : TurnEnv) (hk : env.openaiKey ≠ "")
    (hf : extFailed env.ext = true) :
    assistantText env = mock_lbm_response env.user env.prompt ∧
    (∀ env2 : TurnEnv, env2.openaiKey = "" → env2.user = env.user →
      env2.prompt = env.prompt → assistantText env = assistantText env2) ∧
    (env.saveOk = (fun _ => true) →
      submitTurn env = .ok (mock_lbm_response env.user env.prompt,
        (env.db0 ++ (if env.remember then [mkUserConv env] else [])) ++
          [mkAssistantConv env])) := by
  have h1 := assistantText_fallback env hk hf
  refine ⟨h1, ?_, ?_⟩
  · intro env2 hk2 hu hp
    rw [h1, assistantText_nokey env2 hk2, hu, hp]
  · intro hs
    rw [← h1]
    exact submitTurn_ok_all env hs

theorem external_failure_falls_back_witness :
    envKeyHttp500.openaiKey ≠ "" ∧
    extFailed envKeyHttp500.ext = true ∧
    assistantText envKeyHttp500 = mock_lbm_response profAva "hello" ∧
    assistantText envKeyHttp500 = assistantText envNoKey ∧
    submitTurn envKeyHttp500 = .ok (mock_lbm_response profAva "hello",
      ([] ++ [mkUserConv envKeyHttp500]) ++ [mkAssistantConv envKeyHttp500]) := by
  have T := external_failure_falls_back envKeyHttp500 (by decide) rfl
  exact ⟨by decide, rfl, T.1, T.2.1 envNoKey rfl rfl rfl, T.2.2 rfl⟩

/-- C8: `list_users` returns the stored profiles ordered by `created_at`
descending (adjacent results are non-increasing in the byte order SQLite
uses on the text column), every result comes from a stored row with the same
`created_at`, exactly as many profiles as rows are returned, and the empty
store yields the empty list. -/
theorem list_users_sorted_desc :
    (∀ rows l, list_users rows = .ok l →
      List.Chain' (fun a b : Profile =>
        lexLe b.created_at.data a.created_at.data = true) l ∧
      l.length = rows.length ∧
      ∀ p ∈ l, ∃ r ∈ rows, rowToProfile r = .ok p ∧ p.created_at = r.created_at) ∧
    list_users [] = .ok [] := by
  refine ⟨?_, rfl⟩
  intro rows l h
  unfold list_users at h
  refine ⟨mapRows_chain' _ _ h (chain'_sortByCreatedDesc rows), ?_, ?_⟩
  · rw [mapRows_length _ _ h, length_sortByCreatedDesc]
  · intro p hp
    obtain ⟨r, hr, hrp⟩ := mapRows_mem _ _ h p hp
    exact ⟨r, (mem_sortByCreatedDesc rows r).mp hr, hrp,
      rowToProfile_created_at r p hrp⟩

theorem list_users_sorted_desc_witness :
    list_users rowsThree = .ok
      [⟨"u-2", "B", "b@x.com", "", Json.obj [], "2024-03-01T00:00:00"⟩,
       ⟨"u-3", "C", "c@x.com", "", Json.obj [], "2024-02-01T00:00:00"⟩,
       ⟨"u-1", "A", "a@x.com", "", Json.obj [], "2024-01-01T00:00:00"⟩] ∧
    List.Chain' (fun a b : Profile => lexLe b.created_at.data a.created_at.data = true)
      [⟨"u-2", "B", "b@x.com", "", Json.obj [], "2024-03-01T00:00:00"⟩,
       ⟨"u-3", "C", "c@x.com", "", Json.obj [], "2024-02-01T00:00:00"⟩,
       ⟨"u-1", "A", "a@x.com", "", Json.obj [], "2024-01-01T00:00:00"⟩] := by
  have h : list_users rowsThree = .ok
      [⟨"u-2", "B", "b@x.com", "", Json.obj [], "2024-03-01T00:00:00"⟩,
       ⟨"u-3", "C", "c@x.com", "", Json.obj [], "2024-02-01T00:00:00"⟩,
       ⟨"u-1", "A", "a@x.com", "", Json.obj [], "2024-01-01T00:00:00"⟩] := rfl
  exact ⟨h, (list_users_sorted_desc.1 rowsThree _ h).1⟩

/-- C9: when the profile's `meta` has no `allow_tech_info` key, the pipeline
treats the flag as true (the `.get` default): technical-context capture is
attempted and the persisted user message carries the same non-empty
`metadata.tech` as for an explicit `true`; an explicit `false` yields the
empty tech mapping, and — for the Boolean values `register_flow` stores —
the tech mapping is empty exactly when the flag is explicitly `false`. -/
theorem allow_tech_info_default (env : TurnEnv) :
    (jsonLookup env.user.meta "allow_tech_info" = none →
      techFor env = detect_tech_info env.ipResult env.browserInput ∧
      techFor env ≠ Json.obj [] ∧
      (mkUserConv env).metadata =
        Json.obj [("tech".data, detect_tech_info env.ipResult env.browserInput)]) ∧
    (jsonLookup env.user.meta "allow_tech_info" = some (Json.bool true) →
      techFor env = detect_tech_info env.ipResult env.browserInput) ∧
    (jsonLookup env.user.meta "allow_tech_info" = some (Json.bool false) →
      techFor env = Json.obj []) ∧
    ((jsonLookup env.user.meta "allow_tech_info" = none ∨
      (∃ b, jsonLookup env.user.meta "allow_tech_info" = some (Json.bool b))) →
      (techFor env = Json.obj [] ↔
        jsonLookup env.user.meta "allow_tech_info" = some (Json.bool false))) := by
  refine ⟨?_, ?_, ?_, ?_⟩
  · intro h
    have h1 := techFor_absent env h
    refine ⟨h1, ?_, ?_⟩
    · rw [h1]
      exact detect_tech_info_ne_empty _ _
    · show Json.obj [("tech".data, techFor env)] = _
      rw [h1]
  · intro h
    have h1 := techFor_explicit env true h
    simpa using h1
  · intro h
    have h1 := techFor_explicit env false h
    simpa using h1
  · intro hcase
    rcases hcase with h | ⟨b, h⟩
    · have h1 := techFor_absent env h
      constructor
      · intro he
        rw [h1] at he
        exact absurd he (detect_tech_info_ne_empty _ _)
      · intro he
        rw [h] at he
        exact absurd he (by simp)
    · cases b
      · have h1 := techFor_explicit env false h
        simp at h1
        exact ⟨fun _ => h, fun _ => h1⟩
      · have h1 := techFor_explicit env true h
        simp at h1
        constructor
        · intro he
          rw [h1] at he
          exact absurd he (detect_tech_info_ne_empty _ _)
        · intro he
          rw [h] at he
          injection he with hb
          injection hb with hb2
          exact absurd hb2 (by decide)

theorem allow_tech_info_default_witness :
    jsonLookup envNoFlag.user.meta "allow_tech_info" = none ∧
    techFor envNoFlag = detect_tech_info envNoFlag.ipResult envNoFlag.browserInput ∧
    techFor envNoFlag ≠ Json.obj [] := by
  have h : jsonLookup envNoFlag.user.meta "allow_tech_info" = none := rfl
  have T := (allow_tech_info_default envNoFlag).1 h
  exact ⟨h, T.1, T.2.1⟩

/-- C10: `fetch_user` and `list_users` always hand back a profile whose
`meta` is a mapping — never an absent or null value — for every store state
the application can produce (each `meta` column is `NULL`, empty, or the
`json.dumps` serialization of a mapping, as `save_user` writes it); and a
`NULL` or empty `meta` column becomes the empty mapping. -/
theorem meta_always_mapping (rows : List UserRow) (uid : String)
    (hmeta : ∀ r ∈ rows, r.metaText = none ∨ r.metaText = some "" ∨
      ∃ kvs, r.metaText = some (String.mk (json_dumps (Json.obj kvs))) ∧
        nodupKeys (Json.obj kvs) = true) :
    (∀ p, fetch_user rows uid = .ok (some p) → ∃ kvs, p.meta = Json.obj kvs) ∧
    (∀ l, list_users rows = .ok l → ∀ p ∈ l, ∃ kvs, p.meta = Json.obj kvs) ∧
    (∀ r ∈ rows, (r.metaText = none ∨ r.metaText = some "") →
      rowToProfile r = .ok ⟨r.id, r.name, r.email, r.phone, Json.obj [], r.created_at⟩) := by
  refine ⟨?_, ?_, ?_⟩
  · intro p h
    unfold fetch_user at h
    split at h
    · exact absurd h (by simp)
    · rename_i r heq
      split at h
      · rename_i q hq
        injection h with h1
        injection h1 with h2
        rw [← h2]
        exact rowToProfile_meta_obj r q (hmeta r (List.mem_of_find?_eq_some heq)) hq
      · exact absurd h (by simp)
  · intro l h p hp
    unfold list_users at h
    obtain ⟨r, hr, hrp⟩ := mapRows_mem _ _ h p hp
    exact rowToProfile_meta_obj r p (hmeta r ((mem_sortByCreatedDesc rows r).mp hr)) hrp
  · intro r _ hr2
    exact rowToProfile_empty_meta r hr2

theorem meta_always_mapping_witness :
    fetch_user rowsThree "u-2" = .ok (some
      ⟨"u-2", "B", "b@x.com", "", Json.obj [], "2024-03-01T00:00:00"⟩) ∧
    (∃ kvs, (Json.obj [] : Json) = Json.obj kvs) := by
  have hmeta : ∀ r ∈ rowsThree, r.metaText = none ∨ r.metaText = some "" ∨
      ∃ kvs, r.metaText = some (String.mk (json_dumps (Json.obj kvs))) ∧
        nodupKeys (Json.obj kvs) = true := by
    intro r hr
    simp only [rowsThree, List.mem_cons, List.mem_singleton] at hr
    rcases hr with rfl | rfl | (rfl | h)
    · exact Or.inl rfl
    · exact Or.inl rfl
    · exact Or.inl rfl
    · exact absurd h (List.not_mem_nil r)
  have h : fetch_user rowsThree "u-2" = .ok (some
      ⟨"u-2", "B", "b@x.com", "", Json.obj [], "2024-03-01T00:00:00"⟩) := rfl
  have T := (meta_always_mapping rowsThree "u-2" hmeta).1 _ h
  exact ⟨h, T⟩
